import Mathlib

/-!
Shallow embedding of the GitHub-activity dashboard repository
(`scripts/fetch_stats.js`, `scripts/utils/cache.js`, `scripts/utils/transform.js`,
`drafts/d3/scripts/utils/api.js`) and proofs about its core data transforms,
retry policy and error handling.

Modelling conventions:
* JavaScript numbers holding millisecond/second timestamps are modelled as `Int`;
  non-negative counters as `Nat`.  `Math.floor(x / k)` for positive `k` on an
  integer `x` agrees with Lean's `Int` division (Euclidean division, which for a
  positive divisor is floor division), and `new Date(ts).getUTC*` arithmetic is
  expanded to explicit divisions/mods on the epoch-millisecond value.
* JavaScript objects / `Map`s used as dictionaries are modelled as insertion
  ordered association lists (`List (κ × υ)`), updated in place on key hits and
  appended on misses, exactly as object property / `Map` insertion order works.
* `Array.prototype.sort(cmp)` is, per the ECMAScript specification, a stable
  sort with respect to `cmp`; the relation "stable sort by `cmp`" determines the
  output uniquely, so we embed it as a stable insertion sort `sSort`.
* Asynchronous HTTP calls are modelled by passing in the sequence of per-attempt
  responses (the network oracle); the fetch functions consume that sequence
  exactly in the order the code would issue requests.
-/

namespace GhDash

/-- A weekly bucket `{w, c}` as stored in the stats cache: `w` is the week-start
unix time in seconds, `c` the commit count in that week. -/
structure Week where
  w : Int
  c : Nat
deriving DecidableEq, Repr

/-- A cache entry for one repository, as written by `fetch_stats.js`:
`{ private, totalCommits, weeks, languages }`.  The `private` field is renamed
`isPrivate` (`private` is a Lean keyword); `languages` is the insertion-ordered
association list of `language ↦ byte count`. -/
structure RepoInfo where
  isPrivate : Bool
  totalCommits : Nat
  weeks : List Week
  languages : List (String × Nat)
deriving DecidableEq, Repr

instance : Inhabited RepoInfo := ⟨⟨false, 0, [], []⟩⟩

/-- First-match association-list lookup with a default, the analogue of the
JavaScript read `obj[k] || d` on an object with unique keys. -/
def lookupD [BEq κ] (l : List (κ × υ)) (k : κ) (d : υ) : υ :=
  match l.lookup k with
  | some v => v
  | none => d

/-! ### `weekStartUnix` (`scripts/fetch_stats.js`)

```js
function weekStartUnix(ts) {
  const d = new Date(ts);
  const day = d.getUTCDay(); // 0 (Sun) - 6
  const start = Date.UTC(d.getUTCFullYear(), d.getUTCMonth(), d.getUTCDate()) - (day * 86400000);
  return Math.floor(start / 1000);
}
```

`Date.UTC(y, m, d)` of the calendar day containing `ts` is the UTC midnight
below `ts`, i.e. `(ts / 86400000) * 86400000` with floor division, and
`getUTCDay()` is `(ts / 86400000 + 4) % 7` (day 0 of the epoch, 1970-01-01, was
a Thursday, i.e. weekday 4).  Lean's `Int` `/` and `%` are Euclidean, which for
the positive constant divisors used here coincide with JavaScript's
`Math.floor` division and a non-negative remainder. -/
def weekStartUnix (ts : Int) : Int :=
  let dayIndex : Int := ts / 86400000
  let day : Int := (dayIndex + 4) % 7
  (dayIndex * 86400000 - day * 86400000) / 1000

/-! ### Stable sorting

`Array.prototype.sort(cmp)` is specified to be stable.  A stable sort by a
total preorder is unique, so any stable sorting algorithm is a faithful
embedding; we use insertion sort.  `le a b = true` means the comparator allows
`a` to stay before `b` (i.e. `cmp(a, b) <= 0`). -/

/-- Insert `x` into `ys` keeping every `y` with `¬ le x y` (strictly before `x`
under a total comparator) in front; among comparator-equal elements `x`, which
comes from an earlier original position, lands in front. -/
def sIns (le : α → α → Bool) (x : α) : List α → List α
  | [] => [x]
  | y :: ys => if le x y then x :: y :: ys else y :: sIns le x ys

/-- Stable sort by the comparator `le`. -/
def sSort (le : α → α → Bool) (l : List α) : List α := l.foldr (sIns le) []

/-! ### `countCommitsPerWeek` (`scripts/fetch_stats.js`)

```js
async function countCommitsPerWeek(repoOwner, repoName, author, sinceIso) {
  const commits = await ghFetchAll(...);
  const counts = new Map();
  for (const c of commits) {
    let dateStr = (c.commit && c.commit.author && c.commit.author.date) || (c.author && c.author.date) || null;
    if (!dateStr) continue;
    const ts = Date.parse(dateStr);
    const wk = weekStartUnix(ts);
    counts.set(wk, (counts.get(wk) || 0) + 1);
  }
  const arr = Array.from(counts.entries()).map(([w,c]) => ({ w: Number(w), c: Number(c) }))
                 .sort((a,b) => a.w - b.w);
  return { total: arr.reduce((s,x)=>s+x.c,0), weeks: arr };
}
```

A commit is abstracted to the parsed millisecond timestamp of its author date,
`none` when neither date field is present (the `continue` branch). -/

/-- One `counts.set(wk, (counts.get(wk) || 0) + 1)` step on the insertion
ordered `Map`. -/
def bumpCount (m : List (Int × Nat)) (k : Int) : List (Int × Nat) :=
  match m with
  | [] => [(k, 1)]
  | (k', v) :: rest => if k' = k then (k', v + 1) :: rest else (k', v) :: bumpCount rest k

/-- The `counts` map after the `for (const c of commits)` loop. -/
def commitWeekCounts (commitDates : List (Option Int)) : List (Int × Nat) :=
  commitDates.foldl
    (fun m d => match d with
      | none => m
      | some ts => bumpCount m (weekStartUnix ts)) []

/-- The sorted `arr` of `{w, c}` buckets. -/
def commitWeekArr (commitDates : List (Option Int)) : List Week :=
  sSort (fun a b => decide (a.w ≤ b.w))
    ((commitWeekCounts commitDates).map fun p => Week.mk p.1 p.2)

/-- The fallback commit-counting path: bucket each commit timestamp by its UTC
week start and return the total together with the ascending weekly buckets. -/
def countCommitsPerWeek (commitDates : List (Option Int)) : Nat × List Week :=
  ((commitWeekArr commitDates).foldl (fun s x => s + x.c) 0, commitWeekArr commitDates)

/-! ### `detectChanges` (`scripts/utils/cache.js`)

```js
function detectChanges(prevTotals = {}, newTotals = {}) {
  const keys = new Set([...Object.keys(prevTotals), ...Object.keys(newTotals)]);
  for (const k of keys) {
    if ((prevTotals[k] || 0) !== (newTotals[k] || 0)) return true;
  }
  return false;
}
```

Totals mappings are association lists with unique keys; the `Set` of keys is
the deduplicated concatenation of both key lists. -/
def detectChanges (prevTotals newTotals : List (String × Nat)) : Bool :=
  let keys := ((prevTotals.map Prod.fst) ++ (newTotals.map Prod.fst)).dedup
  keys.any fun k => lookupD prevTotals k 0 != lookupD newTotals k 0

/-! ### `buildFigure1Data` (`scripts/utils/transform.js`)

```js
function buildFigure1Data(cache, username, daysBack = 365, topN = 10) {
  const cutoff = Date.now() - daysBack * 24 * 3600 * 1000;
  const repoTotals = [];
  for (const [repo, info] of Object.entries(cache)) {
    const weeks = (info.weeks || []).filter(w => (w.w * 1000) >= cutoff);
    const total = weeks.reduce((s, w) => s + (w.c || 0), 0);
    repoTotals.push({ repo, total, weeks });
  }
  repoTotals.sort((a, b) => b.total - a.total);
  const top = repoTotals.slice(0, topN).map(r => r.repo);
  const traffic = [];
  for (const r of repoTotals.filter(r => top.includes(r.repo))) {
    for (const w of r.weeks) {
      traffic.push({ name: r.repo, date: new Date(w.w * 1000).toISOString(), value: w.c });
    }
  }
  return { traffic, topRepos: top };
}
```

`Date.now()` is passed in as the parameter `now` (milliseconds).  A traffic
point's `date` field is the ISO rendering of `w.w * 1000`; since
`toISOString` is injective on timestamps we carry the week-start seconds `w.w`
itself. -/

structure RepoTotal where
  repo : String
  total : Nat
  weeks : List Week
deriving DecidableEq, Repr

structure TrafficPoint where
  name : String
  date : Int
  value : Nat
deriving DecidableEq, Repr

def fig1Cutoff (now : Int) (daysBack : Nat) : Int := now - daysBack * 24 * 3600 * 1000

/-- The `repoTotals` array, in cache iteration order. -/
def fig1RepoTotals (cache : List (String × RepoInfo)) (cutoff : Int) : List RepoTotal :=
  cache.map fun e =>
    let weeks := e.2.weeks.filter fun w => decide (w.w * 1000 ≥ cutoff)
    { repo := e.1, total := weeks.foldl (fun s w => s + w.c) 0, weeks := weeks }

/-- `repoTotals` after the in-place stable sort by `(a, b) => b.total - a.total`:
`a` may stay before `b` iff `b.total ≤ a.total`. -/
def fig1Sorted (cache : List (String × RepoInfo)) (cutoff : Int) : List RepoTotal :=
  sSort (fun a b => decide (b.total ≤ a.total)) (fig1RepoTotals cache cutoff)

def buildFigure1Data (cache : List (String × RepoInfo)) (now : Int)
    (daysBack : Nat := 365) (topN : Nat := 10) : List TrafficPoint × List String :=
  let cutoff := fig1Cutoff now daysBack
  let sorted := fig1Sorted cache cutoff
  let top := (sorted.take topN).map (·.repo)
  let traffic := (sorted.filter fun r => top.contains r.repo).flatMap
    fun r => r.weeks.map fun w => TrafficPoint.mk r.repo w.w w.c
  (traffic, top)

/-- Spec-side reading of a repository's total commits within the lookback
window, via cache lookup. -/
def windowTotal (cache : List (String × RepoInfo)) (cutoff : Int) (name : String) : Nat :=
  (((lookupD cache name default).weeks.filter fun w => decide (w.w * 1000 ≥ cutoff)).map
    (·.c)).sum

/-! ### `buildFigure2Data` (`scripts/utils/transform.js`)

```js
function buildFigure2Data(cache, username, weeksBack = 52) {
  const weekMap = new Map();
  const weekMillis = 7 * 24 * 3600 * 1000;
  const cutoff = Date.now() - weeksBack * weekMillis;
  for (const [repo, info] of Object.entries(cache)) {
    let lang = 'Other';
    if (info.languages && Object.keys(info.languages).length > 0) {
      const kv = Object.entries(info.languages).sort((a, b) => b[1] - a[1]);
      lang = kv[0][0];
    }
    if (info.private) lang = 'restricted';
    for (const w of info.weeks || []) {
      const ts = w.w * 1000;
      if (ts < cutoff) continue;
      const iso = new Date(ts).toISOString().slice(0,10);
      if (!weekMap.has(iso)) weekMap.set(iso, {});
      const bucket = weekMap.get(iso);
      bucket[lang] = (bucket[lang] || 0) + (w.c || 0);
    }
  }
  const sortedDates = Array.from(weekMap.keys()).sort();
  const languages = Array.from(new Set(Array.from(weekMap.values()).flatMap(o => Object.keys(o))));
  return sortedDates.map(date => {
    const base = { date: new Date(date) };
    const bucket = weekMap.get(date);
    for (const lang of languages) { base[lang] = bucket[lang] || 0; }
    return base;
  });
}
```

The `weekMap` key is the ISO date string `YYYY-MM-DD` of the UTC day containing
`w.w * 1000`.  For (non-negative) epoch timestamps that string is in bijection
with the UTC day index `w.w * 1000 / 86400000`, and lexicographic order on the
strings agrees with numeric order on the day indices, so buckets are keyed here
by the day index. -/

/-- A figure-2 output row: the week's date (as UTC day index, standing for the
`YYYY-MM-DD` string) together with one count per observed language key. -/
structure Fig2Row where
  date : Int
  counts : List (String × Nat)
deriving DecidableEq, Repr

/-- The primary-language choice for a repository: byte-largest language (stable
descending sort by byte count, first entry), `"Other"` when no languages,
forced to `"restricted"` for private repositories. -/
def dominantLang (info : RepoInfo) : String :=
  let lang :=
    if info.languages.isEmpty then "Other"
    else ((sSort (fun a b => decide (b.2 ≤ a.2)) info.languages).headD ("Other", 0)).1
  if info.isPrivate then "restricted" else lang

/-- One `bucket[lang] = (bucket[lang] || 0) + c` step on the insertion-ordered
object `bucket`. -/
def bumpBucket (b : List (String × Nat)) (lang : String) (c : Nat) : List (String × Nat) :=
  match b with
  | [] => [(lang, c)]
  | (l, v) :: rest => if l = lang then (l, v + c) :: rest else (l, v) :: bumpBucket rest lang c

/-- One in-window week's accumulation into `weekMap` (creating the day's bucket
on first touch, as `weekMap.set(iso, {})` does). -/
def addWeek (m : List (Int × List (String × Nat))) (day : Int) (lang : String) (c : Nat) :
    List (Int × List (String × Nat)) :=
  match m with
  | [] => [(day, bumpBucket [] lang c)]
  | (d, b) :: rest =>
    if d = day then (d, bumpBucket b lang c) :: rest else (d, b) :: addWeek rest day lang c

def fig2Cutoff (now : Int) (weeksBack : Nat) : Int := now - weeksBack * (7 * 24 * 3600 * 1000)

/-- One iteration of the inner `for (const w of info.weeks)` loop: skip weeks
before the cutoff, otherwise accumulate `w.c` under the repo's chosen language
into the bucket of the week's UTC day. -/
def fig2AddWeekStep (cutoff : Int) (lang : String)
    (m : List (Int × List (String × Nat))) (w : Week) :
    List (Int × List (String × Nat)) :=
  if w.w * 1000 < cutoff then m
  else addWeek m (w.w * 1000 / 86400000) lang w.c

/-- One iteration of the outer loop: fold one repository's weeks into the
`weekMap` under its dominant language. -/
def fig2AddRepo (cutoff : Int) (m : List (Int × List (String × Nat)))
    (e : String × RepoInfo) : List (Int × List (String × Nat)) :=
  e.2.weeks.foldl (fig2AddWeekStep cutoff (dominantLang e.2)) m

/-- The `weekMap` after the double loop over the cache and each repo's weeks. -/
def fig2WeekMap (cache : List (String × RepoInfo)) (cutoff : Int) :
    List (Int × List (String × Nat)) :=
  cache.foldl (fig2AddRepo cutoff) []

/-- The deduplicated list of language keys observed in any bucket, in first
observation order (`new Set(values.flatMap(Object.keys))`). -/
def fig2Languages (weekMap : List (Int × List (String × Nat))) : List String :=
  (weekMap.flatMap fun p => p.2.map Prod.fst).dedup

def buildFigure2Data (cache : List (String × RepoInfo)) (now : Int)
    (weeksBack : Nat := 52) : List Fig2Row :=
  let cutoff := fig2Cutoff now weeksBack
  let weekMap := fig2WeekMap cache cutoff
  let sortedDates := sSort (fun a b => decide (a ≤ b)) (weekMap.map Prod.fst)
  let languages := fig2Languages weekMap
  sortedDates.map fun d =>
    { date := d, counts := languages.map fun l => (l, lookupD (lookupD weekMap d []) l 0) }

/-- Spec-side count: total in-window commits during the week of UTC day `d`
over the repositories whose chosen language is `l`. -/
def fig2SpecCount (cache : List (String × RepoInfo)) (cutoff : Int) (d : Int) (l : String) :
    Nat :=
  (cache.map fun e =>
    if dominantLang e.2 = l then
      ((e.2.weeks.filter fun w =>
        decide (¬ w.w * 1000 < cutoff) && decide (w.w * 1000 / 86400000 = d)).map (·.c)).sum
    else 0).sum

/-- Spec-side observation predicate: language `l` is attributed some in-window
week (possibly with a zero count) by some repository of the cache. -/
def fig2Observed (cache : List (String × RepoInfo)) (cutoff : Int) (l : String) : Prop :=
  ∃ e ∈ cache, dominantLang e.2 = l ∧ ∃ w ∈ e.2.weeks, ¬ w.w * 1000 < cutoff

/-- Spec-side observation of a week-start day `d` in the window. -/
def fig2DayObserved (cache : List (String × RepoInfo)) (cutoff : Int) (d : Int) : Prop :=
  ∃ e ∈ cache, ∃ w ∈ e.2.weeks, ¬ w.w * 1000 < cutoff ∧ w.w * 1000 / 86400000 = d

/-! ### `ghFetch` (`drafts/d3/scripts/utils/api.js`)

```js
async function ghFetch(path, token, opts = {}) {
  ...
  let attempt = 0;
  let networkAttempts = 0;
  while (true) {
    attempt++;
    ... res = await fetch(url + qs, ...) ...
    catch (err) {
      networkAttempts++;
      if (networkAttempts <= maxNetworkRetries) {
        const backoff = 500 * Math.pow(2, networkAttempts - 1);
        await sleep(backoff); continue;
      }
      throw new Error(`Request to ${url} failed after ${networkAttempts} network attempts: ...`);
    }
    if (res.status === 202) {
      if (attempt > max202) { ... err.code = 'GH_STATS_202'; throw err; }
      const wait = Math.min(30000, 1500 * Math.pow(1.8, attempt - 1));
      await sleep(wait); continue;
    }
    if (!res.ok) { ... err.status = res.status; throw err; /* text.slice(0,300) */ }
    try { return await res.json(); }
    catch (err) { throw new Error(`Failed to parse JSON ...`); }
  }
}
```

Each loop iteration performs exactly one `fetch`; the network oracle is the
list of per-attempt results, consumed in order.  An `AbortController` timeout
surfaces as the same `catch` as a transport error, so both are one constructor.
Backoff delays are exact rationals (`1.8 = 9/5`). -/

/-- The result of one `fetch` attempt, as the code can observe it. -/
inductive AttemptResp (α : Type) where
  /-- `fetch` rejected: network error or the per-attempt timeout abort. -/
  | netErr (msg : String)
  /-- HTTP 202 "still computing", with the response body text. -/
  | resp202 (body : String)
  /-- A non-ok, non-202 status with its body text. -/
  | respErr (status : Nat) (body : String)
  /-- An ok status whose body parsed as JSON `v`. -/
  | respOk (v : α)
  /-- An ok status whose body failed to parse as JSON. -/
  | respBad (msg : String)
deriving DecidableEq, Repr

/-- How a `ghFetch` call ends. -/
inductive FetchOutcome (α : Type) where
  | ok (v : α)
  /-- The `err.code = 'GH_STATS_202'` error, carrying the attempt number. -/
  | statsNotReady (code : String) (attempt : Nat)
  /-- The `GitHub API error <status> ...` error with the truncated body. -/
  | apiError (status : Nat) (bodyTrunc : String)
  /-- The `failed after N network attempts` error. -/
  | networkFailure (attempts : Nat) (lastMsg : String)
  /-- The `Failed to parse JSON` error. -/
  | malformed (msg : String)
  /-- Model artefact: the supplied oracle had fewer entries than the loop
  consumed (the real loop would issue another request). -/
  | oracleExhausted
deriving DecidableEq, Repr

/-- The `while (true)` loop of `ghFetch`; `attempt` has already been
incremented for the response at the head of the list.  Returns the outcome and
the list of `sleep` delays performed, in milliseconds. -/
def ghFetchGo (max202 maxNetworkRetries : Nat) :
    List (AttemptResp α) → Nat → Nat → FetchOutcome α × List ℚ
  | [], _, _ => (.oracleExhausted, [])
  | r :: rest, attempt, networkAttempts =>
    match r with
    | .netErr msg =>
      if networkAttempts + 1 ≤ maxNetworkRetries then
        let backoff : ℚ := 500 * 2 ^ networkAttempts
        let out := ghFetchGo max202 maxNetworkRetries rest (attempt + 1) (networkAttempts + 1)
        (out.1, backoff :: out.2)
      else (.networkFailure (networkAttempts + 1) msg, [])
    | .resp202 _ =>
      if attempt > max202 then (.statsNotReady "GH_STATS_202" attempt, [])
      else
        let wait : ℚ := min 30000 (1500 * (9 / 5 : ℚ) ^ (attempt - 1))
        let out := ghFetchGo max202 maxNetworkRetries rest (attempt + 1) networkAttempts
        (out.1, wait :: out.2)
    | .respErr status body => (.apiError status (body.take 300), [])
    | .respOk v => (.ok v, [])
    | .respBad msg => (.malformed msg, [])

/-- A `ghFetch` call against the oracle `responses`; defaults `max202 = 4`,
`maxNetworkRetries = 2` as in the code. -/
def ghFetch (responses : List (AttemptResp α)) (max202 : Nat := 4)
    (maxNetworkRetries : Nat := 2) : FetchOutcome α × List ℚ :=
  ghFetchGo max202 maxNetworkRetries responses 1 0

/-! ### `ghFetchAll` (`drafts/d3/scripts/utils/api.js`)

```js
async function ghFetchAll(pathBase, token, opts = {}) {
  const results = [];
  let page = 1;
  while (true) {
    const qs = `${...}per_page=100&page=${page}`;
    try {
      const chunk = await ghFetch(pathBase, token, Object.assign({}, opts, { qs }));
      if (!Array.isArray(chunk) || chunk.length === 0) break;
      results.push(...chunk);
      if (chunk.length < 100) break;
      page++;
    } catch (err) {
      throw new Error(`Failed to fetch page ${page} for ${pathBase}: ${err.message}`);
    }
  }
  return results;
}
```

The oracle is the list of per-page results of the inner `ghFetch` call. -/

/-- The result of fetching one page. -/
inductive PageResp (α : Type) where
  /-- The page's `ghFetch` resolved to a JSON array of items. -/
  | arr (items : List α)
  /-- The page's `ghFetch` resolved to a non-array JSON value. -/
  | notArr
  /-- The page's `ghFetch` threw, with the inner error message. -/
  | err (msg : String)
deriving DecidableEq, Repr

/-- How a `ghFetchAll` call ends. -/
inductive PagedOutcome (α : Type) where
  | ok (items : List α)
  /-- The `Failed to fetch page <page> ...` error. -/
  | pageError (page : Nat) (msg : String)
  /-- Model artefact: the oracle had fewer pages than the loop requested. -/
  | oracleExhausted
deriving DecidableEq, Repr

/-- The `while (true)` loop of `ghFetchAll`.  Also returns the list of page
indices actually requested, in order. -/
def ghFetchAllGo : List (PageResp α) → Nat → List α → PagedOutcome α × List Nat
  | [], _, _ => (.oracleExhausted, [])
  | p :: rest, page, results =>
    match p with
    | .err msg => (.pageError page msg, [page])
    | .notArr => (.ok results, [page])
    | .arr chunk =>
      if chunk.length = 0 then (.ok results, [page])
      else if chunk.length < 100 then (.ok (results ++ chunk), [page])
      else
        let out := ghFetchAllGo rest (page + 1) (results ++ chunk)
        (out.1, page :: out.2)

def ghFetchAll (pages : List (PageResp α)) : PagedOutcome α × List Nat :=
  ghFetchAllGo pages 1 []

/-! ### The `fetch_stats.js` main loops

Two variants exist in the repository; both are embedded.  The first
(`scripts/fetch_stats.js`) tries `/stats/contributors` and falls back to
listing commits; the second (draft variant) uses only `/stats/contributors`.
Per-repository processing runs inside `try { ... } catch { continue; }`, so the
loop body is a total function of the repository and its fetch outcomes. -/

/-- The repository-listing fields consulted by the loops. -/
structure Repo where
  fullName : String
  archived : Bool
  isPrivate : Bool
deriving DecidableEq, Repr

/-- Outcome of the `/repos/:o/:n/stats/contributors` call, as consumed by
`fetch_stats.js`. -/
inductive ContribResp where
  /-- Array containing an entry for the user, with its `total` and `weeks`. -/
  | entry (total : Nat) (weeks : List Week)
  /-- Array without an entry for the user. -/
  | noEntry
  /-- A non-array JSON value. -/
  | nonArray
  /-- The fetch threw (`GH_STATS_202` after max202 retries, or any other
  error); both are caught by the same `catch` and lead to the fallback. -/
  | fetchErr (msg : String)
deriving DecidableEq, Repr

/-- Outcome of the fallback `countCommitsPerWeek` call. -/
inductive FallbackResp where
  | ok (total : Nat) (weeks : List Week)
  | fetchErr (msg : String)
deriving DecidableEq, Repr

/-- All fetch outcomes for one repository in `scripts/fetch_stats.js`.
`langs` is the languages mapping after the language fetch (already degraded to
`{}` if that fetch failed, as its own `try/catch` does). -/
structure RepoFetch where
  langs : List (String × Nat)
  contrib : ContribResp
  fallback : FallbackResp
deriving DecidableEq, Repr

/-- The body of the `for (const repo of repoList)` loop in
`scripts/fetch_stats.js`: the cache/totals entry this repository contributes,
or `none` when it is skipped (archived, no contributions, or an error). -/
def processRepo (r : Repo × RepoFetch) : Option (String × RepoInfo) :=
  if r.1.archived then none
  else
    match r.2.contrib with
    | .entry total weeks =>
      some (r.1.fullName, ⟨r.1.isPrivate, total, weeks, r.2.langs⟩)
    | _ =>
      match r.2.fallback with
      | .ok total weeks =>
        if total > 0 then some (r.1.fullName, ⟨r.1.isPrivate, total, weeks, r.2.langs⟩)
        else none
      | .fetchErr _ => none

/-- The `newCache` object built by the `scripts/fetch_stats.js` run. -/
def fetchStatsRun (repos : List (Repo × RepoFetch)) : List (String × RepoInfo) :=
  repos.filterMap processRepo

/-- The `newTotals` object: assigned in lockstep with `newCache`, always to
the entry's `totalCommits`. -/
def fetchStatsTotals (repos : List (Repo × RepoFetch)) : List (String × Nat) :=
  (fetchStatsRun repos).map fun e => (e.1, e.2.totalCommits)

/-- All fetch outcomes for one repository in the draft variant
(`part_004`): a single `try` wraps the contributors and languages fetches. -/
inductive RepoOutcome2 where
  /-- Contributors and languages both fetched; an entry for the user found. -/
  | okMe (total : Nat) (weeks : List Week) (langs : List (String × Nat))
  /-- Both fetched but no entry for the user (or a non-array result). -/
  | okNoMe
  /-- Some fetch in the `try` block threw (`GH_STATS_202` or any other
  error); the `catch` logs and continues. -/
  | fetchErr (msg : String)
deriving DecidableEq, Repr

/-- The loop body of the draft variant. -/
def processRepo2 (r : Repo × RepoOutcome2) : Option (String × RepoInfo) :=
  if r.1.archived then none
  else
    match r.2 with
    | .okMe total weeks langs => some (r.1.fullName, ⟨r.1.isPrivate, total, weeks, langs⟩)
    | .okNoMe => none
    | .fetchErr _ => none

/-- The `newCache` object built by the draft variant's run. -/
def fetchStatsRun2 (repos : List (Repo × RepoOutcome2)) : List (String × RepoInfo) :=
  repos.filterMap processRepo2

/-! ## Theorems -/

theorem lookupD_of_mem_nodup {υ : Type} {l : List (String × υ)} {k : String} {v : υ}
    (d : υ) (hmem : (k, v) ∈ l) (h : (l.map Prod.fst).Nodup) : lookupD l k d = v := by
  induction l with
  | nil => cases hmem
  | cons e rest ih =>
    obtain ⟨k', v'⟩ := e
    rw [List.map_cons, List.nodup_cons] at h
    by_cases hk : k = k'
    · subst hk
      rcases List.mem_cons.mp hmem with heq | hmem'
      · cases heq
        simp [lookupD, List.lookup]
      · exact absurd (List.mem_map_of_mem Prod.fst hmem') h.1
    · have hne : (k == k') = false := beq_eq_false_iff_ne.mpr hk
      rcases List.mem_cons.mp hmem with heq | hmem'
      · cases heq
        exact absurd rfl hk
      · simpa [lookupD, List.lookup, hne] using ih hmem' h.2

/-- Running `ghFetchAllGo` over a prefix of full (length-100) pages
accumulates their concatenation and moves on to the rest. -/
theorem ghFetchAllGo_full_run {α : Type} (fulls : List (List α))
    (h : ∀ l ∈ fulls, l.length = 100) (rest : List (PageResp α)) (page : Nat)
    (acc : List α) :
    ghFetchAllGo ((fulls.map PageResp.arr) ++ rest) page acc
      = ((ghFetchAllGo rest (page + fulls.length) (acc ++ fulls.flatten)).1,
         List.range' page fulls.length ++
           (ghFetchAllGo rest (page + fulls.length) (acc ++ fulls.flatten)).2) := by
  induction fulls generalizing page acc with
  | nil => simp
  | cons l ls ih =>
    have hl : l.length = 100 := h l (List.mem_cons_self _ _)
    have hls : ∀ x ∈ ls, x.length = 100 := fun x hx => h x (List.mem_cons_of_mem _ hx)
    simp only [List.map_cons, List.cons_append, ghFetchAllGo, hl]
    norm_num
    rw [ih hls (page + 1) (acc ++ l)]
    have harith : page + 1 + ls.length = page + (ls.length + 1) := by omega
    rw [harith, List.append_assoc]
    exact ⟨rfl, by rw [List.range'_succ, List.cons_append]⟩

theorem pairwise_indexOf (l : List String) (h : l.Nodup) :
    l.Pairwise fun a b => l.indexOf a < l.indexOf b := by
  induction l with
  | nil => exact List.Pairwise.nil
  | cons x xs ih =>
    rw [List.nodup_cons] at h
    refine List.pairwise_cons.mpr ⟨?_, ?_⟩
    · intro b hb
      have hbx : b ≠ x := fun heq => h.1 (heq ▸ hb)
      rw [List.indexOf_cons_self, List.indexOf_cons_ne _ (Ne.symm hbx)]
      exact Nat.succ_pos _
    · refine (ih h.2).imp_of_mem ?_
      intro a b ha hb hab
      have hax : a ≠ x := fun heq => h.1 (heq ▸ ha)
      have hbx : b ≠ x := fun heq => h.1 (heq ▸ hb)
      rw [List.indexOf_cons_ne _ (Ne.symm hax), List.indexOf_cons_ne _ (Ne.symm hbx)]
      exact Nat.succ_lt_succ hab

theorem mem_sIns (le : α → α → Bool) (x : α) (l : List α) (z : α) :
    z ∈ sIns le x l ↔ z = x ∨ z ∈ l := by
  induction l with
  | nil => simp [sIns]
  | cons y ys ih =>
    by_cases h : le x y
    · simp [sIns, h]
    · simp only [sIns, if_neg h, List.mem_cons, ih]
      tauto

theorem sIns_perm (le : α → α → Bool) (x : α) (l : List α) :
    (sIns le x l).Perm (x :: l) := by
  induction l with
  | nil => simp [sIns]
  | cons y ys ih =>
    by_cases h : le x y
    · simp [sIns, h]
    · simp only [sIns, if_neg h]
      exact (ih.cons y).trans (List.Perm.swap x y ys)

theorem sSort_perm (le : α → α → Bool) (l : List α) : (sSort le l).Perm l := by
  induction l with
  | nil => simp [sSort]
  | cons x xs ih => exact (sIns_perm le x (sSort le xs)).trans (ih.cons x)

theorem sIns_sorted (le : α → α → Bool)
    (htrans : ∀ a b c, le a b = true → le b c = true → le a c = true)
    (htot : ∀ a b, le a b = true ∨ le b a = true)
    (x : α) (l : List α) (hl : l.Pairwise fun a b => le a b = true) :
    (sIns le x l).Pairwise fun a b => le a b = true := by
  induction l with
  | nil => simp [sIns]
  | cons y ys ih =>
    rcases List.pairwise_cons.mp hl with ⟨hy, hys⟩
    by_cases h : le x y
    · rw [sIns, if_pos h]
      refine List.pairwise_cons.mpr ⟨?_, hl⟩
      intro z hz
      rcases List.mem_cons.mp hz with rfl | hz
      · exact h
      · exact htrans _ _ _ h (hy z hz)
    · rw [sIns, if_neg h]
      refine List.pairwise_cons.mpr ⟨?_, ih hys⟩
      intro z hz
      rcases (mem_sIns le x ys z).mp hz with rfl | hz
      · rcases htot z y with h' | h'
        · exact absurd h' h
        · exact h'
      · exact hy z hz

theorem sSort_sorted (le : α → α → Bool)
    (htrans : ∀ a b c, le a b = true → le b c = true → le a c = true)
    (htot : ∀ a b, le a b = true ∨ le b a = true)
    (l : List α) : (sSort le l).Pairwise fun a b => le a b = true := by
  induction l with
  | nil => simp [sSort]
  | cons x xs ih => exact sIns_sorted le htrans htot x (sSort le xs) ih

/-- Strong stability: if the original list is strictly increasing under a
priority map `f` (e.g. `f` = original position), then in the stably sorted list
every earlier element `a` satisfies `le a b`, and whenever the comparator also
allows the reverse order (`le b a`, a comparator tie), `a` has the smaller
priority, i.e. came earlier in the input. -/
theorem sIns_pairwise_stable (le : α → α → Bool) (f : α → Nat)
    (htrans : ∀ a b c, le a b = true → le b c = true → le a c = true)
    (htot : ∀ a b, le a b = true ∨ le b a = true)
    (x : α) (l : List α)
    (hl : l.Pairwise fun a b => le a b = true ∧ (le b a = true → f a < f b))
    (hx : ∀ y ∈ l, f x < f y) :
    (sIns le x l).Pairwise fun a b => le a b = true ∧ (le b a = true → f a < f b) := by
  induction l with
  | nil => simp [sIns]
  | cons y ys ih =>
    rcases List.pairwise_cons.mp hl with ⟨hy, hys⟩
    by_cases h : le x y
    · rw [sIns, if_pos h]
      refine List.pairwise_cons.mpr ⟨?_, hl⟩
      intro z hz
      rcases List.mem_cons.mp hz with rfl | hz
      · exact ⟨h, fun _ => hx z (List.mem_cons_self _ _)⟩
      · exact ⟨htrans _ _ _ h (hy z hz).1, fun _ => hx z (List.mem_cons_of_mem _ hz)⟩
    · rw [sIns, if_neg h]
      refine List.pairwise_cons.mpr
        ⟨?_, ih hys (fun z hz => hx z (List.mem_cons_of_mem _ hz))⟩
      intro z hz
      rcases (mem_sIns le x ys z).mp hz with rfl | hz
      · have hyx : le y z = true := by
          rcases htot z y with h' | h'
          · exact absurd h' h
          · exact h'
        exact ⟨hyx, fun h' => absurd h' h⟩
      · exact hy z hz

theorem sSort_pairwise_stable (le : α → α → Bool) (f : α → Nat)
    (htrans : ∀ a b c, le a b = true → le b c = true → le a c = true)
    (htot : ∀ a b, le a b = true ∨ le b a = true)
    (l : List α) (hl : l.Pairwise fun a b => f a < f b) :
    (sSort le l).Pairwise fun a b => le a b = true ∧ (le b a = true → f a < f b) := by
  induction l with
  | nil => simp [sSort]
  | cons x xs ih =>
    rcases List.pairwise_cons.mp hl with ⟨hx, hxs⟩
    refine sIns_pairwise_stable le f htrans htot x (sSort le xs) (ih hxs) ?_
    intro y hy
    exact hx y ((sSort_perm le xs).mem_iff.mp hy)

theorem mem_keys_bumpCount (m : List (Int × Nat)) (k x : Int) :
    x ∈ (bumpCount m k).map Prod.fst ↔ x ∈ m.map Prod.fst ∨ x = k := by
  induction m with
  | nil => simp [bumpCount]
  | cons p rest ih =>
    obtain ⟨k1, v1⟩ := p
    by_cases h : k1 = k
    · simp only [bumpCount, if_pos h, List.map_cons, List.mem_cons, ih]
      constructor
      · rintro (rfl | hx)
        · exact Or.inl (Or.inl rfl)
        · exact Or.inl (Or.inr hx)
      · rintro ((rfl | hx) | rfl)
        · exact Or.inl rfl
        · exact Or.inr hx
        · exact Or.inl h.symm
    · simp only [bumpCount, if_neg h, List.map_cons, List.mem_cons, ih]
      tauto

theorem keys_nodup_bumpCount (m : List (Int × Nat)) (k : Int)
    (h : (m.map Prod.fst).Nodup) : ((bumpCount m k).map Prod.fst).Nodup := by
  induction m with
  | nil => simp [bumpCount]
  | cons p rest ih =>
    obtain ⟨k1, v1⟩ := p
    rw [List.map_cons, List.nodup_cons] at h
    by_cases hk : k1 = k
    · rw [bumpCount, if_pos hk, List.map_cons, List.nodup_cons]
      exact h
    · rw [bumpCount, if_neg hk, List.map_cons, List.nodup_cons]
      refine ⟨?_, ih h.2⟩
      rw [mem_keys_bumpCount]
      rintro (hx | rfl)
      · exact h.1 hx
      · exact hk rfl

/-- Closed form of `weekStartUnix`: the day index of `ts`, pulled back to the
preceding Sunday, in seconds. -/
theorem weekStartUnix_eq (ts : Int) :
    weekStartUnix ts = (ts / 86400000 - (ts / 86400000 + 4) % 7) * 86400 := by
  show (ts / 86400000 * 86400000 - (ts / 86400000 + 4) % 7 * 86400000) / 1000 = _
  omega

/-- **C3.** For all timestamps `t` (milliseconds), `weekStartUnix t` is a
UTC Sunday 00:00:00 boundary (it is a multiple of 86400 seconds and its day
index is ≡ Sunday mod 7), it is at or below `t` (`weekStartUnix t * 1000 ≤ t`,
equivalently `weekStartUnix t ≤ t / 1000`), and it is idempotent:
`weekStartUnix (weekStartUnix t * 1000) = weekStartUnix t`. -/
theorem weekStartUnix_sunday_le_idem (t : Int) :
    weekStartUnix t % 86400 = 0 ∧
    (weekStartUnix t / 86400 + 4) % 7 = 0 ∧
    weekStartUnix t * 1000 ≤ t ∧
    weekStartUnix t ≤ t / 1000 ∧
    weekStartUnix (weekStartUnix t * 1000) = weekStartUnix t := by
  simp only [weekStartUnix_eq]
  omega

/-- `reduce((s,x) => s + x.c, 0)` is the sum of the `c` fields. -/
theorem foldl_add_c (l : List Week) (n : Nat) :
    l.foldl (fun s x => s + x.c) n = n + (l.map (·.c)).sum := by
  induction l generalizing n with
  | nil => simp
  | cons x xs ih =>
    rw [List.foldl_cons, ih, List.map_cons, List.sum_cons]
    omega

theorem commitWeekCounts_keys_nodup_aux (ds : List (Option Int))
    (m : List (Int × Nat)) (h : (m.map Prod.fst).Nodup) :
    ((ds.foldl
      (fun m d => match d with
        | none => m
        | some ts => bumpCount m (weekStartUnix ts)) m).map Prod.fst).Nodup := by
  induction ds generalizing m with
  | nil => exact h
  | cons d ds ih =>
    cases d with
    | none => exact ih m h
    | some ts => exact ih _ (keys_nodup_bumpCount m (weekStartUnix ts) h)

theorem commitWeekCounts_keys_nodup (ds : List (Option Int)) :
    ((commitWeekCounts ds).map Prod.fst).Nodup :=
  commitWeekCounts_keys_nodup_aux ds [] (by simp)

/-- **C2.** For every sequence of commit timestamps, the fallback path's
returned total equals the sum of the `commitCount` fields of the returned
weekly buckets, and the returned weeks are strictly ascending in `w` — in
particular at most one bucket per week-start value. -/
theorem countCommitsPerWeek_total_eq_sum_and_sorted (commitDates : List (Option Int)) :
    (countCommitsPerWeek commitDates).1
      = (((countCommitsPerWeek commitDates).2).map (·.c)).sum ∧
    (((countCommitsPerWeek commitDates).2).map (·.w)).Nodup ∧
    ((countCommitsPerWeek commitDates).2).Pairwise fun a b => a.w < b.w := by
  have htrans : ∀ a b c : Week, decide (a.w ≤ b.w) = true → decide (b.w ≤ c.w) = true →
      decide (a.w ≤ c.w) = true := by
    intro a b c h1 h2
    simp only [decide_eq_true_eq] at h1 h2 ⊢
    omega
  have htot : ∀ a b : Week, decide (a.w ≤ b.w) = true ∨ decide (b.w ≤ a.w) = true := by
    intro a b
    simp only [decide_eq_true_eq]
    omega
  have hperm : (commitWeekArr commitDates).Perm
      ((commitWeekCounts commitDates).map fun p => Week.mk p.1 p.2) :=
    sSort_perm _ _
  have hnodup : ((commitWeekArr commitDates).map (·.w)).Nodup := by
    refine ((hperm.map (·.w)).nodup_iff).mpr ?_
    rw [List.map_map]
    exact commitWeekCounts_keys_nodup commitDates
  refine ⟨?_, hnodup, ?_⟩
  · show (commitWeekArr commitDates).foldl (fun s x => s + x.c) 0
      = ((commitWeekArr commitDates).map (·.c)).sum
    rw [foldl_add_c]
    omega
  have hsorted := sSort_sorted _ htrans htot
    ((commitWeekCounts commitDates).map fun p => Week.mk p.1 p.2)
  have hne : (commitWeekArr commitDates).Pairwise fun a b => a.w ≠ b.w := by
    rw [← List.pairwise_map (R := (· ≠ ·))]
    exact hnodup
  refine (List.Pairwise.and hsorted hne).imp ?_
  intro a b ⟨h1, h2⟩
  simp only [decide_eq_true_eq] at h1
  omega

/-- **C9.** `detectChanges` is reflexively false, and is `true` iff some key
present in either totals mapping has differing values, a missing key being
read as 0. -/
theorem detectChanges_refl_and_iff (T T1 T2 : List (String × Nat)) :
    detectChanges T T = false ∧
    (detectChanges T1 T2 = true ↔
      ∃ k, (k ∈ T1.map Prod.fst ∨ k ∈ T2.map Prod.fst) ∧
        lookupD T1 k 0 ≠ lookupD T2 k 0) := by
  constructor
  · simp [detectChanges]
  · simp only [detectChanges, List.any_eq_true, List.mem_dedup, List.mem_append,
      bne_iff_ne, ne_eq]

/-- The loop stops at a short or empty page, returning the accumulator plus
that page's items (an empty page appends nothing). -/
theorem ghFetchAllGo_last {α : Type} (items : List α) (hlast : items.length < 100)
    (rest : List (PageResp α)) (page : Nat) (acc : List α) :
    ghFetchAllGo (PageResp.arr items :: rest) page acc
      = (PagedOutcome.ok (acc ++ items), [page]) := by
  by_cases h0 : items.length = 0
  · rw [List.length_eq_zero] at h0
    subst h0
    simp [ghFetchAllGo]
  · simp only [ghFetchAllGo, if_neg h0, if_pos hlast]

theorem ghFetchAllGo_err {α : Type} (msg : String) (rest : List (PageResp α))
    (page : Nat) (acc : List α) :
    ghFetchAllGo (PageResp.err msg :: rest) page acc
      = (PagedOutcome.pageError page msg, [page]) := rfl

/-- **C6.** The paginated fetch requests successive page indices 1, 2, …
(fixed page size 100), concatenates the page arrays in order, stops exactly at
the first page with fewer than 100 items or an empty collection (issuing no
further request), and propagates a page-level failure immediately, wrapped
with the failing page number. -/
theorem ghFetchAll_pagination {α : Type} (fulls : List (List α))
    (h : ∀ l ∈ fulls, l.length = 100) (lastItems : List α)
    (hlast : lastItems.length < 100) (rest rest' : List (PageResp α)) (msg : String) :
    ghFetchAll ((fulls.map PageResp.arr) ++ PageResp.arr lastItems :: rest)
      = (PagedOutcome.ok (fulls.flatten ++ lastItems), List.range' 1 (fulls.length + 1)) ∧
    ghFetchAll ((fulls.map PageResp.arr) ++ PageResp.err msg :: rest')
      = (PagedOutcome.pageError (fulls.length + 1) msg, List.range' 1 (fulls.length + 1)) := by
  have hrange : List.range' 1 fulls.length ++ [1 + fulls.length]
      = List.range' 1 (fulls.length + 1) := by
    rw [List.range'_concat]
    simp
  have hn : 1 + fulls.length = fulls.length + 1 := Nat.add_comm _ _
  constructor
  · rw [ghFetchAll, ghFetchAllGo_full_run fulls h _ 1 [],
      ghFetchAllGo_last lastItems hlast, List.nil_append]
    exact Prod.ext rfl hrange
  · rw [ghFetchAll, ghFetchAllGo_full_run fulls h _ 1 [],
      ghFetchAllGo_err, hn]
    exact Prod.ext rfl (hn ▸ hrange)

/-- Witness for `ghFetchAll_pagination`: pages of 100, 100 and 40 items yield
240 items over exactly three requests, and a full page followed by an empty
page yields exactly the 100 items over two requests. -/
theorem ghFetchAll_pagination_witness :
    (ghFetchAll (([List.replicate 100 0, List.replicate 100 0].map PageResp.arr)
        ++ PageResp.arr (List.replicate 40 0) :: ([] : List (PageResp Nat)))
      = (PagedOutcome.ok ([List.replicate 100 0, List.replicate 100 0].flatten
          ++ List.replicate 40 0), List.range' 1 3)) ∧
    ([List.replicate 100 0, List.replicate 100 (0 : Nat)].flatten
        ++ List.replicate 40 0).length = 240 ∧
    (ghFetchAll (([List.replicate 100 0].map PageResp.arr)
        ++ PageResp.arr ([] : List Nat) :: [])
      = (PagedOutcome.ok ([List.replicate 100 (0 : Nat)].flatten ++ []),
         List.range' 1 2)) := by
  have h2 : ∀ l ∈ [List.replicate 100 (0 : Nat), List.replicate 100 0], l.length = 100 := by
    intro l hl
    rcases List.mem_cons.mp hl with rfl | hl
    · simp only [List.length_replicate]
    rcases List.mem_cons.mp hl with rfl | hl
    · simp only [List.length_replicate]
    cases hl
  have h1 : ∀ l ∈ [List.replicate 100 (0 : Nat)], l.length = 100 := by
    intro l hl
    rcases List.mem_cons.mp hl with rfl | hl
    · simp only [List.length_replicate]
    cases hl
  have h40 : (List.replicate 40 (0 : Nat)).length < 100 := by
    simp only [List.length_replicate]
    omega
  have h0 : ([] : List Nat).length < 100 := by
    simp only [List.length_nil]
    omega
  refine ⟨(ghFetchAll_pagination _ h2 _ h40 [] [] "").1, ?_,
    (ghFetchAll_pagination _ h1 [] h0 [] [] "").1⟩
  simp only [List.flatten_cons, List.flatten_nil, List.append_nil, List.length_append,
    List.length_replicate]

/-- Consuming a prefix of `j` network errors, all within the retry budget:
each costs a backoff of `500 * 2 ^ networkAttempts` ms and increments both the
global attempt counter and the network-attempt counter. -/
theorem ghFetchGo_netErr_run {α : Type} (max202 maxNet : Nat) (j : Nat) (m : String)
    (rest : List (AttemptResp α)) (attempt netA : Nat) (h : netA + j ≤ maxNet) :
    ghFetchGo max202 maxNet (List.replicate j (AttemptResp.netErr m) ++ rest) attempt netA
      = ((ghFetchGo max202 maxNet rest (attempt + j) (netA + j)).1,
         (List.range' netA j).map (fun i => (500 : ℚ) * 2 ^ i)
           ++ (ghFetchGo max202 maxNet rest (attempt + j) (netA + j)).2) := by
  induction j generalizing attempt netA with
  | zero => simp
  | succ j ih =>
    rw [List.replicate_succ, List.cons_append]
    have hle : netA + 1 ≤ maxNet := by omega
    simp only [ghFetchGo, if_pos hle]
    rw [ih (attempt + 1) (netA + 1) (by omega)]
    have e1 : attempt + 1 + j = attempt + (j + 1) := by omega
    have e2 : netA + 1 + j = netA + (j + 1) := by omega
    rw [e1, e2, List.range'_succ, List.map_cons, List.cons_append]

/-- Consuming a prefix of `k` "still computing" responses, all retried: the
`n`-th of them arrives at global attempt `attempt + n` and costs a wait of
`min(30000, 1500 * 1.8 ^ (attempt + n - 1))` ms. -/
theorem ghFetchGo_202_run {α : Type} (max202 maxNet : Nat) (k : Nat) (b : String)
    (rest : List (AttemptResp α)) (attempt netA : Nat) (ha : 1 ≤ attempt)
    (h : attempt + k ≤ max202 + 1) :
    ghFetchGo max202 maxNet (List.replicate k (AttemptResp.resp202 b) ++ rest) attempt netA
      = ((ghFetchGo max202 maxNet rest (attempt + k) netA).1,
         (List.range' (attempt - 1) k).map
            (fun i => min (30000 : ℚ) (1500 * (9 / 5 : ℚ) ^ i))
           ++ (ghFetchGo max202 maxNet rest (attempt + k) netA).2) := by
  induction k generalizing attempt with
  | zero => simp
  | succ k ih =>
    rw [List.replicate_succ, List.cons_append]
    have hng : ¬ attempt > max202 := by omega
    simp only [ghFetchGo, if_neg hng]
    rw [ih (attempt + 1) (by omega) (by omega)]
    have e1 : attempt + 1 + k = attempt + (k + 1) := by omega
    have e2 : attempt - 1 + 1 = attempt + 1 - 1 := by omega
    rw [e1, List.range'_succ, List.map_cons, List.cons_append, e2]

theorem ghFetchGo_202_exhausted {α : Type} (max202 maxNet : Nat) (b : String)
    (rest : List (AttemptResp α)) (attempt netA : Nat) (hgt : attempt > max202) :
    ghFetchGo max202 maxNet (AttemptResp.resp202 b :: rest) attempt netA
      = (FetchOutcome.statsNotReady "GH_STATS_202" attempt, []) := by
  simp only [ghFetchGo, if_pos hgt]

theorem ghFetchGo_netErr_exhausted {α : Type} (max202 maxNet : Nat) (m : String)
    (rest : List (AttemptResp α)) (attempt netA : Nat) (hgt : netA + 1 > maxNet) :
    ghFetchGo max202 maxNet (AttemptResp.netErr m :: rest) attempt netA
      = (FetchOutcome.networkFailure (netA + 1) m, []) := by
  simp only [ghFetchGo, if_neg (by omega : ¬ netA + 1 ≤ maxNet)]

/-- **C7.** On network/timeout failures `ghFetch` retries up to
`maxNetworkRetries` times with backoff `500 * 2 ^ n` ms (doubling from 500ms),
then fails with a `networkFailure` carrying the attempt count and the *last*
error message; a non-success status other than 202 fails immediately — no
retry, no wait — with the status code and the body truncated to 300
characters. -/
theorem ghFetch_network_retry_and_api_error {α : Type} (max202 maxNet : Nat) :
    (∀ (j : Nat) (m : String) (v : α) (rest : List (AttemptResp α)), j ≤ maxNet →
      ghFetch (List.replicate j (AttemptResp.netErr m) ++ AttemptResp.respOk v :: rest)
          max202 maxNet
        = (FetchOutcome.ok v, (List.range' 0 j).map fun i => (500 : ℚ) * 2 ^ i)) ∧
    (∀ (m1 m2 : String) (rest : List (AttemptResp α)),
      ghFetch (List.replicate maxNet (AttemptResp.netErr m1)
          ++ AttemptResp.netErr m2 :: rest) max202 maxNet
        = (FetchOutcome.networkFailure (maxNet + 1) m2,
           (List.range' 0 maxNet).map fun i => (500 : ℚ) * 2 ^ i)) ∧
    (∀ (status : Nat) (body : String) (rest : List (AttemptResp α)),
      ghFetch (AttemptResp.respErr status body :: rest) max202 maxNet
        = (FetchOutcome.apiError status (body.take 300), [])) := by
  refine ⟨?_, ?_, ?_⟩
  · intro j m v rest hj
    rw [ghFetch, ghFetchGo_netErr_run max202 maxNet j m _ 1 0 (by omega)]
    simp [ghFetchGo]
  · intro m1 m2 rest
    rw [ghFetch, ghFetchGo_netErr_run max202 maxNet maxNet m1 _ 1 0 (by omega),
      ghFetchGo_netErr_exhausted max202 maxNet m2 rest _ _ (by omega)]
    simp
  · intro status body rest
    rfl

/-- Witness for `ghFetch_network_retry_and_api_error`: with the default budget
`maxNetworkRetries = 2`, two network errors back off 500ms then 1000ms before
a success; three network errors fail with the third message; a 404 fails
immediately with no waits. -/
theorem ghFetch_network_retry_witness :
    (ghFetch (List.replicate 2 (AttemptResp.netErr "t") ++ AttemptResp.respOk (5 : Nat) :: [])
        4 2 = (FetchOutcome.ok 5, [(500 : ℚ), 1000])) ∧
    (ghFetch (List.replicate 2 (AttemptResp.netErr "t")
          ++ AttemptResp.netErr "last" :: ([] : List (AttemptResp Nat)))
        4 2 = (FetchOutcome.networkFailure 3 "last", [(500 : ℚ), 1000])) ∧
    (ghFetch (AttemptResp.respErr 404 "Not Found" :: ([] : List (AttemptResp Nat))) 4 2
      = (FetchOutcome.apiError 404 ("Not Found".take 300), [])) := by
  refine ⟨?_, ?_, ?_⟩
  · have := (ghFetch_network_retry_and_api_error (α := Nat) 4 2).1 2 "t" 5 [] (by omega)
    rw [this]
    norm_num [List.range']
  · have := (ghFetch_network_retry_and_api_error (α := Nat) 4 2).2.1 "t" "last" []
    rw [this]
    norm_num [List.range']
  · exact (ghFetch_network_retry_and_api_error (α := Nat) 4 2).2.2 404 "Not Found" []

/-- **C1 (amended).** The 202 retry check uses the *global* attempt counter,
which also counts attempts that ended in a network error: with `j` network
errors preceding them, `k` consecutive 202 responses are all retried iff
`j + k ≤ max202`, the waits being `min(30000, 1500 * 1.8 ^ (attempt - 1))` ms
with the global attempt exponents `j, …, j + k - 1`; and once a 202 arrives on
global attempt `max202 + 1` the call fails with the distinguished error code
`GH_STATS_202`.  With no network errors (`j = 0`) this is exactly: up to
`max202` retries with exponents `0, …, max202 - 1`. -/
theorem ghFetch_202_retry_shared_counter {α : Type} (max202 maxNet j k : Nat)
    (m b : String) (v : α) (rest rest' : List (AttemptResp α)) (hj : j ≤ maxNet) :
    (j + k ≤ max202 →
      ghFetch (List.replicate j (AttemptResp.netErr m)
          ++ List.replicate k (AttemptResp.resp202 b) ++ AttemptResp.respOk v :: rest)
          max202 maxNet
        = (FetchOutcome.ok v,
           (List.range' 0 j).map (fun i => (500 : ℚ) * 2 ^ i)
             ++ (List.range' j k).map
                (fun i => min (30000 : ℚ) (1500 * (9 / 5 : ℚ) ^ i)))) ∧
    (j + k = max202 + 1 → 1 ≤ k →
      ghFetch (List.replicate j (AttemptResp.netErr m)
          ++ List.replicate k (AttemptResp.resp202 b) ++ rest') max202 maxNet
        = (FetchOutcome.statsNotReady "GH_STATS_202" (max202 + 1),
           (List.range' 0 j).map (fun i => (500 : ℚ) * 2 ^ i)
             ++ (List.range' j (k - 1)).map
                (fun i => min (30000 : ℚ) (1500 * (9 / 5 : ℚ) ^ i)))) := by
  constructor
  · intro hk
    rw [ghFetch]
    simp only [List.append_assoc]
    rw [ghFetchGo_netErr_run max202 maxNet j m _ 1 0 (by omega)]
    simp only [Nat.zero_add]
    rw [ghFetchGo_202_run max202 maxNet k b _ (1 + j) j (by omega) (by omega)]
    have e1 : 1 + j - 1 = j := by omega
    rw [e1]
    simp [ghFetchGo, List.append_assoc]
  · intro hk hk1
    obtain ⟨k', rfl⟩ : ∃ k', k = k' + 1 := ⟨k - 1, by omega⟩
    rw [List.replicate_succ' k' (AttemptResp.resp202 b), ghFetch]
    simp only [List.append_assoc, List.singleton_append]
    rw [ghFetchGo_netErr_run max202 maxNet j m _ 1 0 (by omega)]
    simp only [Nat.zero_add]
    rw [ghFetchGo_202_run max202 maxNet k' b _ (1 + j) j (by omega) (by omega),
      ghFetchGo_202_exhausted max202 maxNet b _ _ _ (by omega)]
    have e1 : 1 + j - 1 = j := by omega
    have e2 : 1 + j + k' = max202 + 1 := by omega
    have e3 : k' + 1 - 1 = k' := by omega
    rw [e1, e2, e3]
    simp

/-- Counterexample to C1 as stated: the number of 202 retries and the backoff
exponent are *not* independent of preceding network-error retries.  With
`max202 = 1`, a lone 202 followed by a success is retried (wait 1500ms,
exponent 0) and succeeds; the same call preceded by one network error fails
with `GH_STATS_202` on the very first 202 (only the 500ms network backoff was
waited), because the network attempt had already consumed the shared attempt
counter. -/
theorem ghFetch_202_budget_depends_on_network_retries :
    ghFetch [AttemptResp.resp202 "", AttemptResp.respOk (7 : Nat)] 1 2
      = (FetchOutcome.ok 7, [(1500 : ℚ)]) ∧
    ghFetch [AttemptResp.netErr "boom", AttemptResp.resp202 "", AttemptResp.respOk (7 : Nat)]
        1 2
      = (FetchOutcome.statsNotReady "GH_STATS_202" 2, [(500 : ℚ)]) := by
  constructor
  · norm_num [ghFetch, ghFetchGo]
  · norm_num [ghFetch, ghFetchGo]

/-- Witness for `ghFetch_202_retry_shared_counter`: one network error then two
202s then success, within budget (`max202 = 3`); and one network error then a
202 exceeding the shared budget (`max202 = 1`). -/
theorem ghFetch_202_retry_shared_counter_witness :
    (ghFetch (List.replicate 1 (AttemptResp.netErr "x")
        ++ List.replicate 2 (AttemptResp.resp202 "") ++ AttemptResp.respOk (5 : Nat) :: [])
        3 2
      = (FetchOutcome.ok 5,
         (List.range' 0 1).map (fun i => (500 : ℚ) * 2 ^ i)
           ++ (List.range' 1 2).map
              (fun i => min (30000 : ℚ) (1500 * (9 / 5 : ℚ) ^ i)))) ∧
    (ghFetch (List.replicate 1 (AttemptResp.netErr "x")
        ++ List.replicate 1 (AttemptResp.resp202 "") ++ ([] : List (AttemptResp Nat)))
        1 2
      = (FetchOutcome.statsNotReady "GH_STATS_202" 2,
         (List.range' 0 1).map (fun i => (500 : ℚ) * 2 ^ i)
           ++ (List.range' 1 0).map
              (fun i => min (30000 : ℚ) (1500 * (9 / 5 : ℚ) ^ i)))) :=
  ⟨(ghFetch_202_retry_shared_counter 3 2 1 2 "x" "" (5 : Nat) [] [] (by omega)).1 (by omega),
   (ghFetch_202_retry_shared_counter 1 2 1 1 "x" "" (5 : Nat) [] [] (by omega)).2
     (by omega) (by omega)⟩

/-- A cache entry produced by `processRepo` is keyed by the repository's full
name. -/
theorem processRepo_some_name (p : Repo × RepoFetch) (e : String × RepoInfo)
    (h : processRepo p = some e) : e.1 = p.1.fullName := by
  unfold processRepo at h
  split at h
  · cases h
  · split at h
    · cases h
      rfl
    · split at h
      · split at h
        · cases h
          rfl
        · cases h
      · cases h

theorem processRepo2_some_name (p : Repo × RepoOutcome2) (e : String × RepoInfo)
    (h : processRepo2 p = some e) : e.1 = p.1.fullName := by
  unfold processRepo2 at h
  split at h
  · cases h
  · split at h
    · cases h
      rfl
    · cases h
    · cases h

theorem fetchStatsRun_keys_subset (repos : List (Repo × RepoFetch)) (x : String)
    (hx : x ∈ (fetchStatsRun repos).map Prod.fst) :
    x ∈ repos.map fun p => p.1.fullName := by
  rw [List.mem_map] at hx
  obtain ⟨e, he, rfl⟩ := hx
  rw [fetchStatsRun, List.mem_filterMap] at he
  obtain ⟨p, hp, hpe⟩ := he
  rw [List.mem_map]
  exact ⟨p, hp, (processRepo_some_name p e hpe).symm⟩

theorem fetchStatsRun2_keys_subset (repos : List (Repo × RepoOutcome2)) (x : String)
    (hx : x ∈ (fetchStatsRun2 repos).map Prod.fst) :
    x ∈ repos.map fun p => p.1.fullName := by
  rw [List.mem_map] at hx
  obtain ⟨e, he, rfl⟩ := hx
  rw [fetchStatsRun2, List.mem_filterMap] at he
  obtain ⟨p, hp, hpe⟩ := he
  rw [List.mem_map]
  exact ⟨p, hp, (processRepo2_some_name p e hpe).symm⟩

/-- **C8.** A repository whose fetch fails (its contributors call yields no
usable entry and its fallback commit listing throws — e.g. a 404) contributes
nothing: the run over the whole discovery list equals the run over the other
repositories, so every subsequent repository is still processed, and the
failing repository is absent from the resulting cache and totals snapshot.
The same holds in the draft variant, where any fetch error in a repository's
`try` block skips exactly that repository. -/
theorem fetchStats_failed_repo_skipped
    (pre post : List (Repo × RepoFetch)) (r : Repo) (f : RepoFetch)
    (hc : ∀ t w, f.contrib ≠ ContribResp.entry t w)
    (hf : ∃ m, f.fallback = FallbackResp.fetchErr m) :
    (fetchStatsRun (pre ++ (r, f) :: post) = fetchStatsRun pre ++ fetchStatsRun post ∧
     fetchStatsTotals (pre ++ (r, f) :: post)
       = fetchStatsTotals pre ++ fetchStatsTotals post) ∧
    (r.fullName ∉ (pre ++ post).map (fun p => p.1.fullName) →
      r.fullName ∉ (fetchStatsRun (pre ++ (r, f) :: post)).map Prod.fst ∧
      r.fullName ∉ (fetchStatsTotals (pre ++ (r, f) :: post)).map Prod.fst) ∧
    (∀ (pre2 post2 : List (Repo × RepoOutcome2)) (r2 : Repo) (msg : String),
      fetchStatsRun2 (pre2 ++ (r2, RepoOutcome2.fetchErr msg) :: post2)
        = fetchStatsRun2 pre2 ++ fetchStatsRun2 post2 ∧
      (r2.fullName ∉ (pre2 ++ post2).map (fun p => p.1.fullName) →
        r2.fullName
          ∉ (fetchStatsRun2 (pre2 ++ (r2, RepoOutcome2.fetchErr msg) :: post2)).map
              Prod.fst)) := by
  obtain ⟨msg0, hm⟩ := hf
  have hnone : processRepo (r, f) = none := by
    unfold processRepo
    cases hcon : f.contrib with
    | entry t w => exact absurd hcon (hc t w)
    | noEntry => simp [hm]
    | nonArray => simp [hm]
    | fetchErr m => simp [hm]
  have hrun : fetchStatsRun (pre ++ (r, f) :: post)
      = fetchStatsRun pre ++ fetchStatsRun post := by
    simp [fetchStatsRun, List.filterMap_append, List.filterMap_cons, hnone]
  refine ⟨⟨hrun, ?_⟩, ?_, ?_⟩
  · simp [fetchStatsTotals, hrun]
  · intro hnotin
    have hkeys : r.fullName ∉ (fetchStatsRun (pre ++ (r, f) :: post)).map Prod.fst := by
      intro hx
      rw [hrun, List.map_append, List.mem_append] at hx
      rcases hx with hx | hx
      · exact hnotin (by
          rw [List.map_append, List.mem_append]
          exact Or.inl (fetchStatsRun_keys_subset pre _ hx))
      · exact hnotin (by
          rw [List.map_append, List.mem_append]
          exact Or.inr (fetchStatsRun_keys_subset post _ hx))
    refine ⟨hkeys, ?_⟩
    intro hx
    apply hkeys
    rw [fetchStatsTotals, List.map_map] at hx
    rw [List.mem_map] at hx ⊢
    obtain ⟨e, he, hee⟩ := hx
    exact ⟨e, he, hee⟩
  · intro pre2 post2 r2 msg
    have hnone2 : processRepo2 (r2, RepoOutcome2.fetchErr msg) = none := by
      unfold processRepo2
      split <;> rfl
    have hrun2 : fetchStatsRun2 (pre2 ++ (r2, RepoOutcome2.fetchErr msg) :: post2)
        = fetchStatsRun2 pre2 ++ fetchStatsRun2 post2 := by
      simp [fetchStatsRun2, List.filterMap_append, List.filterMap_cons, hnone2]
    refine ⟨hrun2, ?_⟩
    intro hnotin hx
    rw [hrun2, List.map_append, List.mem_append] at hx
    rcases hx with hx | hx
    · exact hnotin (by
        rw [List.map_append, List.mem_append]
        exact Or.inl (fetchStatsRun2_keys_subset pre2 _ hx))
    · exact hnotin (by
        rw [List.map_append, List.mem_append]
        exact Or.inr (fetchStatsRun2_keys_subset post2 _ hx))

/-- Witness for `fetchStats_failed_repo_skipped`: a 404-failing repository
between two healthy ones is absent from the cache while both neighbours are
processed. -/
theorem fetchStats_failed_repo_skipped_witness :
    (fetchStatsRun ([(Repo.mk "o/a" false false,
          RepoFetch.mk [("Python", 10)] (ContribResp.entry 5 [Week.mk 0 5])
            (FallbackResp.ok 5 [Week.mk 0 5]))]
        ++ (Repo.mk "o/x" false false,
            RepoFetch.mk [] (ContribResp.fetchErr "404") (FallbackResp.fetchErr "404"))
          :: [(Repo.mk "o/b" false true,
              RepoFetch.mk [] (ContribResp.entry 3 [Week.mk 0 3])
                (FallbackResp.ok 3 [Week.mk 0 3]))])
      = fetchStatsRun [(Repo.mk "o/a" false false,
          RepoFetch.mk [("Python", 10)] (ContribResp.entry 5 [Week.mk 0 5])
            (FallbackResp.ok 5 [Week.mk 0 5]))]
        ++ fetchStatsRun [(Repo.mk "o/b" false true,
            RepoFetch.mk [] (ContribResp.entry 3 [Week.mk 0 3])
              (FallbackResp.ok 3 [Week.mk 0 3]))]) ∧
    (fetchStatsRun [(Repo.mk "o/a" false false,
          RepoFetch.mk [("Python", 10)] (ContribResp.entry 5 [Week.mk 0 5])
            (FallbackResp.ok 5 [Week.mk 0 5]))]).length = 1 := by
  refine ⟨((fetchStats_failed_repo_skipped _ _ _ _ ?_ ?_).1).1, by decide⟩
  · intro t w h
    cases h
  · exact ⟨"404", rfl⟩

theorem contains_iff_mem {l : List String} {a : String} : l.contains a = true ↔ a ∈ l := by
  rw [List.contains_iff_exists_mem_beq]
  constructor
  · rintro ⟨a', ha', he⟩
    rw [beq_iff_eq] at he
    exact he ▸ ha'
  · intro h
    exact ⟨a, h, by simp⟩

theorem fig1le_trans (a b c : RepoTotal) (h1 : decide (b.total ≤ a.total) = true)
    (h2 : decide (c.total ≤ b.total) = true) : decide (c.total ≤ a.total) = true := by
  simp only [decide_eq_true_eq] at h1 h2 ⊢
  omega

theorem fig1le_total (a b : RepoTotal) :
    decide (b.total ≤ a.total) = true ∨ decide (a.total ≤ b.total) = true := by
  simp only [decide_eq_true_eq]
  omega

/-- The sorted `repoTotals` is ordered by descending total, comparator ties
resolved by the original cache position (stability of the sort). -/
theorem fig1Sorted_pairwise (cache : List (String × RepoInfo)) (cutoff : Int)
    (hnodup : (cache.map Prod.fst).Nodup) :
    (fig1Sorted cache cutoff).Pairwise fun a b =>
      decide (b.total ≤ a.total) = true ∧
      (decide (a.total ≤ b.total) = true →
        (cache.map Prod.fst).indexOf a.repo < (cache.map Prod.fst).indexOf b.repo) := by
  refine sSort_pairwise_stable _ (fun r => (cache.map Prod.fst).indexOf r.repo)
    fig1le_trans fig1le_total _ ?_
  rw [fig1RepoTotals, List.pairwise_map]
  have h := pairwise_indexOf (cache.map Prod.fst) hnodup
  rw [List.pairwise_map] at h
  exact h

/-- Every element of `repoTotals` is the window restriction of a cache entry:
its name is a cache key, its `total` is that repository's windowed total, and
its `weeks` are the repository's in-window weeks. -/
theorem fig1RepoTotals_mem_spec (cache : List (String × RepoInfo)) (cutoff : Int)
    (hnodup : (cache.map Prod.fst).Nodup) (r : RepoTotal)
    (hr : r ∈ fig1RepoTotals cache cutoff) :
    r.repo ∈ cache.map Prod.fst ∧
    r.total = windowTotal cache cutoff r.repo ∧
    r.weeks = (lookupD cache r.repo default).weeks.filter
        fun w => decide (w.w * 1000 ≥ cutoff) := by
  rw [fig1RepoTotals, List.mem_map] at hr
  obtain ⟨e, he, rfl⟩ := hr
  have hl : lookupD cache e.1 default = e.2 :=
    lookupD_of_mem_nodup default (by simpa using he) hnodup
  refine ⟨List.mem_map_of_mem Prod.fst he, ?_, ?_⟩
  · show (e.2.weeks.filter fun w => decide (w.w * 1000 ≥ cutoff)).foldl
        (fun s w => s + w.c) 0 = windowTotal cache cutoff e.1
    rw [windowTotal, hl, foldl_add_c]
    omega
  · show e.2.weeks.filter (fun w => decide (w.w * 1000 ≥ cutoff))
        = (lookupD cache e.1 default).weeks.filter fun w => decide (w.w * 1000 ≥ cutoff)
    rw [hl]

theorem buildFigure1Data_snd (cache : List (String × RepoInfo)) (now : Int)
    (daysBack topN : Nat) :
    (buildFigure1Data cache now daysBack topN).2
      = ((fig1Sorted cache (fig1Cutoff now daysBack)).take topN).map (·.repo) := rfl

theorem buildFigure1Data_fst (cache : List (String × RepoInfo)) (now : Int)
    (daysBack topN : Nat) :
    (buildFigure1Data cache now daysBack topN).1
      = ((fig1Sorted cache (fig1Cutoff now daysBack)).filter fun r =>
           (((fig1Sorted cache (fig1Cutoff now daysBack)).take topN).map
              (·.repo)).contains r.repo).flatMap
          fun r => r.weeks.map fun w => TrafficPoint.mk r.repo w.w w.c := rfl

/-- Membership characterisation of the emitted traffic points: a point
`(name, t, c)` is emitted iff `name` is a top repository and its cache entry
has the week `{w := t, c := c}` inside the lookback window. -/
theorem fig1_mem_traffic_iff (cache : List (String × RepoInfo)) (now : Int)
    (daysBack topN : Nat) (hnodup : (cache.map Prod.fst).Nodup)
    (name : String) (t : Int) (c : Nat) :
    TrafficPoint.mk name t c ∈ (buildFigure1Data cache now daysBack topN).1 ↔
      (name ∈ (buildFigure1Data cache now daysBack topN).2 ∧
       ∃ w ∈ (lookupD cache name default).weeks,
         w.w = t ∧ w.c = c ∧ w.w * 1000 ≥ fig1Cutoff now daysBack) := by
  rw [buildFigure1Data_fst, buildFigure1Data_snd]
  constructor
  · intro hmem
    rw [List.mem_flatMap] at hmem
    obtain ⟨r, hr, hpt⟩ := hmem
    rw [List.mem_filter] at hr
    obtain ⟨hrs, hrc⟩ := hr
    rw [List.mem_map] at hpt
    obtain ⟨w, hw, hweq⟩ := hpt
    cases hweq
    have hr' : r ∈ fig1RepoTotals cache (fig1Cutoff now daysBack) :=
      (sSort_perm _ _).mem_iff.mp hrs
    obtain ⟨hrn, hrt, hrw⟩ :=
      fig1RepoTotals_mem_spec cache (fig1Cutoff now daysBack) hnodup r hr'
    rw [hrw, List.mem_filter] at hw
    refine ⟨contains_iff_mem.mp hrc, w, hw.1, rfl, rfl, ?_⟩
    have := hw.2
    rwa [decide_eq_true_eq] at this
  · rintro ⟨htop, w, hw, rfl, rfl, hcut⟩
    rw [List.mem_map] at htop
    obtain ⟨r, hrt, hrepo⟩ := htop
    have hrs : r ∈ fig1Sorted cache (fig1Cutoff now daysBack) :=
      List.mem_of_mem_take hrt
    have hr' : r ∈ fig1RepoTotals cache (fig1Cutoff now daysBack) :=
      (sSort_perm _ _).mem_iff.mp hrs
    obtain ⟨hrn, _, hrw⟩ :=
      fig1RepoTotals_mem_spec cache (fig1Cutoff now daysBack) hnodup r hr'
    rw [List.mem_flatMap]
    refine ⟨r, ?_, ?_⟩
    · rw [List.mem_filter]
      refine ⟨hrs, contains_iff_mem.mpr ?_⟩
      rw [List.mem_map]
      exact ⟨r, hrt, rfl⟩
    · rw [List.mem_map]
      refine ⟨w, ?_, by rw [hrepo]⟩
      rw [hrw, hrepo, List.mem_filter]
      exact ⟨hw, by simpa using hcut⟩

/-- Distinct top repositories emit disjoint point groups; with per-repository
week-start uniqueness the traffic list has no duplicate points. -/
theorem fig1_traffic_nodup (cache : List (String × RepoInfo)) (now : Int)
    (daysBack topN : Nat) (hnodup : (cache.map Prod.fst).Nodup)
    (hweeks : ∀ e ∈ cache, (e.2.weeks.map Week.w).Nodup) :
    ((buildFigure1Data cache now daysBack topN).1).Nodup := by
  rw [buildFigure1Data_fst, List.nodup_flatMap]
  constructor
  · intro r hr
    rw [List.mem_filter] at hr
    have hr' : r ∈ fig1RepoTotals cache (fig1Cutoff now daysBack) :=
      (sSort_perm _ _).mem_iff.mp hr.1
    obtain ⟨hrn, _, hrw⟩ :=
      fig1RepoTotals_mem_spec cache (fig1Cutoff now daysBack) hnodup r hr'
    rw [List.mem_map] at hrn
    obtain ⟨e, he, heq⟩ := hrn
    have hl : lookupD cache r.repo default = e.2 := by
      rw [← heq]
      exact lookupD_of_mem_nodup default (by simpa using he) hnodup
    rw [hrw, hl]
    have hfn : ((e.2.weeks.filter fun w =>
        decide (w.w * 1000 ≥ fig1Cutoff now daysBack)).map Week.w).Nodup :=
      (hweeks e he).sublist (List.Sublist.map Week.w (List.filter_sublist _))
    refine List.Nodup.map_on ?_ (hfn.of_map _)
    intro x hx y hy hxy
    exact List.inj_on_of_nodup_map hfn hx hy (congrArg TrafficPoint.date hxy)
  · have hnames : ((fig1Sorted cache (fig1Cutoff now daysBack)).map (·.repo)).Nodup := by
      have hperm : ((fig1Sorted cache (fig1Cutoff now daysBack)).map (·.repo)).Perm
          ((fig1RepoTotals cache (fig1Cutoff now daysBack)).map (·.repo)) :=
        (sSort_perm _ _).map _
      rw [hperm.nodup_iff]
      have hmm : (fig1RepoTotals cache (fig1Cutoff now daysBack)).map (·.repo)
          = cache.map Prod.fst := by
        rw [fig1RepoTotals, List.map_map]
        rfl
      rw [hmm]
      exact hnodup
    have hpne : ((fig1Sorted cache (fig1Cutoff now daysBack)).filter fun r =>
        (((fig1Sorted cache (fig1Cutoff now daysBack)).take topN).map
          (·.repo)).contains r.repo).Pairwise fun r1 r2 => r1.repo ≠ r2.repo :=
      ((List.pairwise_map).mp hnames).sublist (List.filter_sublist _)
    refine hpne.imp ?_
    intro r1 r2 hne p hp1 hp2
    rw [List.mem_map] at hp1 hp2
    obtain ⟨w1, _, h1⟩ := hp1
    obtain ⟨w2, _, h2⟩ := hp2
    exact hne (congrArg TrafficPoint.name (h1.trans h2.symm))

/-- **C4.** `buildFigure1Data` ranks repositories by their windowed totals:
`topRepos` is pairwise ordered by strictly larger windowed total, with equal
totals ordered by original cache (insertion) position; a point `(name, t, c)`
is emitted exactly when `name` is a top repository and its entry carries the
in-window week `{w := t, c := c}` (one point per such pair when week starts
are unique per repository). -/
theorem buildFigure1Data_ranking_and_points (cache : List (String × RepoInfo))
    (now : Int) (daysBack topN : Nat) (hnodup : (cache.map Prod.fst).Nodup) :
    ((buildFigure1Data cache now daysBack topN).2).Pairwise (fun a b =>
        windowTotal cache (fig1Cutoff now daysBack) b
            < windowTotal cache (fig1Cutoff now daysBack) a ∨
        (windowTotal cache (fig1Cutoff now daysBack) a
            = windowTotal cache (fig1Cutoff now daysBack) b ∧
          (cache.map Prod.fst).indexOf a < (cache.map Prod.fst).indexOf b)) ∧
    (∀ a ∈ (buildFigure1Data cache now daysBack topN).2,
      ∀ b ∈ cache.map Prod.fst, b ∉ (buildFigure1Data cache now daysBack topN).2 →
        (windowTotal cache (fig1Cutoff now daysBack) b
            < windowTotal cache (fig1Cutoff now daysBack) a ∨
         (windowTotal cache (fig1Cutoff now daysBack) a
            = windowTotal cache (fig1Cutoff now daysBack) b ∧
          (cache.map Prod.fst).indexOf a < (cache.map Prod.fst).indexOf b))) ∧
    (∀ (name : String) (t : Int) (c : Nat),
      TrafficPoint.mk name t c ∈ (buildFigure1Data cache now daysBack topN).1 ↔
        (name ∈ (buildFigure1Data cache now daysBack topN).2 ∧
         ∃ w ∈ (lookupD cache name default).weeks,
           w.w = t ∧ w.c = c ∧ w.w * 1000 ≥ fig1Cutoff now daysBack)) ∧
    ((∀ e ∈ cache, (e.2.weeks.map Week.w).Nodup) →
      ((buildFigure1Data cache now daysBack topN).1).Nodup) := by
  have hp := fig1Sorted_pairwise cache (fig1Cutoff now daysBack) hnodup
  have translate : ∀ a b : RepoTotal,
      a ∈ fig1RepoTotals cache (fig1Cutoff now daysBack) →
      b ∈ fig1RepoTotals cache (fig1Cutoff now daysBack) →
      (decide (b.total ≤ a.total) = true ∧
        (decide (a.total ≤ b.total) = true →
          (cache.map Prod.fst).indexOf a.repo < (cache.map Prod.fst).indexOf b.repo)) →
      (windowTotal cache (fig1Cutoff now daysBack) b.repo
          < windowTotal cache (fig1Cutoff now daysBack) a.repo ∨
       (windowTotal cache (fig1Cutoff now daysBack) a.repo
          = windowTotal cache (fig1Cutoff now daysBack) b.repo ∧
        (cache.map Prod.fst).indexOf a.repo < (cache.map Prod.fst).indexOf b.repo)) := by
    intro a b ha' hb' hab
    obtain ⟨_, hat, _⟩ :=
      fig1RepoTotals_mem_spec cache (fig1Cutoff now daysBack) hnodup a ha'
    obtain ⟨_, hbt, _⟩ :=
      fig1RepoTotals_mem_spec cache (fig1Cutoff now daysBack) hnodup b hb'
    obtain ⟨h1, h2⟩ := hab
    rw [decide_eq_true_eq] at h1
    by_cases heq : a.total ≤ b.total
    · refine Or.inr ⟨?_, h2 (by simpa using heq)⟩
      rw [← hat, ← hbt]
      omega
    · refine Or.inl ?_
      rw [← hat, ← hbt]
      omega
  refine ⟨?_, ?_, fig1_mem_traffic_iff cache now daysBack topN hnodup,
    fig1_traffic_nodup cache now daysBack topN hnodup⟩
  · rw [buildFigure1Data_snd, List.pairwise_map]
    have hsub := hp.sublist (List.take_sublist topN _)
    refine hsub.imp_of_mem ?_
    intro a b ha hb hab
    exact translate a b
      ((sSort_perm _ _).mem_iff.mp (List.mem_of_mem_take ha))
      ((sSort_perm _ _).mem_iff.mp (List.mem_of_mem_take hb)) hab
  · intro a ha b hb hbn
    rw [buildFigure1Data_snd, List.mem_map] at ha
    obtain ⟨ra, hta, rfl⟩ := ha
    rw [List.mem_map] at hb
    obtain ⟨e, he, rfl⟩ := hb
    set rb : RepoTotal :=
      ⟨e.1, (e.2.weeks.filter fun w => decide (w.w * 1000 ≥ fig1Cutoff now daysBack)).foldl
          (fun s w => s + w.c) 0,
        e.2.weeks.filter fun w => decide (w.w * 1000 ≥ fig1Cutoff now daysBack)⟩ with hrb
    have hrb' : rb ∈ fig1RepoTotals cache (fig1Cutoff now daysBack) := by
      rw [fig1RepoTotals, List.mem_map]
      exact ⟨e, he, rfl⟩
    have hrbs : rb ∈ fig1Sorted cache (fig1Cutoff now daysBack) :=
      (sSort_perm _ _).mem_iff.mpr hrb'
    have hrbdrop : rb ∈ (fig1Sorted cache (fig1Cutoff now daysBack)).drop topN := by
      rcases (List.mem_append.mp
        (by rwa [List.take_append_drop] : rb ∈
          (fig1Sorted cache (fig1Cutoff now daysBack)).take topN
            ++ (fig1Sorted cache (fig1Cutoff now daysBack)).drop topN)) with h | h
      · exact absurd (by
          rw [buildFigure1Data_snd, List.mem_map]
          exact ⟨rb, h, rfl⟩) hbn
      · exact h
    have hcross := (List.pairwise_append.mp
      (by rwa [List.take_append_drop] : ((fig1Sorted cache
          (fig1Cutoff now daysBack)).take topN
        ++ (fig1Sorted cache (fig1Cutoff now daysBack)).drop topN).Pairwise _)).2.2
      ra hta rb hrbdrop
    exact translate ra rb
      ((sSort_perm _ _).mem_iff.mp (List.mem_of_mem_take hta)) hrb' hcross

/-- Witness for `buildFigure1Data_ranking_and_points`: four repositories with
windowed totals 50, 30, 80, 10 and `topN = 2` rank as `["c", "a"]` (the
80-total repository first, then the 50-total one). -/
theorem buildFigure1Data_ranking_and_points_witness :
    ((([("a", RepoInfo.mk false 50 [Week.mk 0 50] []),
        ("b", RepoInfo.mk false 30 [Week.mk 0 30] []),
        ("c", RepoInfo.mk false 80 [Week.mk 0 80] []),
        ("d", RepoInfo.mk false 10 [Week.mk 0 10] [])] :
          List (String × RepoInfo)).map Prod.fst).Nodup) ∧
    ((buildFigure1Data [("a", RepoInfo.mk false 50 [Week.mk 0 50] []),
        ("b", RepoInfo.mk false 30 [Week.mk 0 30] []),
        ("c", RepoInfo.mk false 80 [Week.mk 0 80] []),
        ("d", RepoInfo.mk false 10 [Week.mk 0 10] [])] 0 7 2).2).Pairwise (fun a b =>
      windowTotal [("a", RepoInfo.mk false 50 [Week.mk 0 50] []),
        ("b", RepoInfo.mk false 30 [Week.mk 0 30] []),
        ("c", RepoInfo.mk false 80 [Week.mk 0 80] []),
        ("d", RepoInfo.mk false 10 [Week.mk 0 10] [])] (fig1Cutoff 0 7) b
          < windowTotal [("a", RepoInfo.mk false 50 [Week.mk 0 50] []),
        ("b", RepoInfo.mk false 30 [Week.mk 0 30] []),
        ("c", RepoInfo.mk false 80 [Week.mk 0 80] []),
        ("d", RepoInfo.mk false 10 [Week.mk 0 10] [])] (fig1Cutoff 0 7) a ∨
      (windowTotal [("a", RepoInfo.mk false 50 [Week.mk 0 50] []),
        ("b", RepoInfo.mk false 30 [Week.mk 0 30] []),
        ("c", RepoInfo.mk false 80 [Week.mk 0 80] []),
        ("d", RepoInfo.mk false 10 [Week.mk 0 10] [])] (fig1Cutoff 0 7) a
          = windowTotal [("a", RepoInfo.mk false 50 [Week.mk 0 50] []),
        ("b", RepoInfo.mk false 30 [Week.mk 0 30] []),
        ("c", RepoInfo.mk false 80 [Week.mk 0 80] []),
        ("d", RepoInfo.mk false 10 [Week.mk 0 10] [])] (fig1Cutoff 0 7) b ∧
        (([("a", RepoInfo.mk false 50 [Week.mk 0 50] []),
        ("b", RepoInfo.mk false 30 [Week.mk 0 30] []),
        ("c", RepoInfo.mk false 80 [Week.mk 0 80] []),
        ("d", RepoInfo.mk false 10 [Week.mk 0 10] [])] :
          List (String × RepoInfo)).map Prod.fst).indexOf a
          < (([("a", RepoInfo.mk false 50 [Week.mk 0 50] []),
        ("b", RepoInfo.mk false 30 [Week.mk 0 30] []),
        ("c", RepoInfo.mk false 80 [Week.mk 0 80] []),
        ("d", RepoInfo.mk false 10 [Week.mk 0 10] [])] :
          List (String × RepoInfo)).map Prod.fst).indexOf b)) ∧
    (buildFigure1Data [("a", RepoInfo.mk false 50 [Week.mk 0 50] []),
        ("b", RepoInfo.mk false 30 [Week.mk 0 30] []),
        ("c", RepoInfo.mk false 80 [Week.mk 0 80] []),
        ("d", RepoInfo.mk false 10 [Week.mk 0 10] [])] 0 7 2).2 = ["c", "a"] :=
  ⟨by decide,
   (buildFigure1Data_ranking_and_points [("a", RepoInfo.mk false 50 [Week.mk 0 50] []),
        ("b", RepoInfo.mk false 30 [Week.mk 0 30] []),
        ("c", RepoInfo.mk false 80 [Week.mk 0 80] []),
        ("d", RepoInfo.mk false 10 [Week.mk 0 10] [])] 0 7 2 (by decide)).1,
   by decide⟩

/-- **C10 (amended).** `topRepos` has length exactly
`min topN (number of cache entries)`: zero-total repositories are not excluded
from the ranking, and whenever the cache has at most `topN` repositories every
repository (zero-total ones included) appears in `topRepos`.  A zero-total top
repository contributes a zero-valued point for each of its in-window weeks,
and contributes no points only when it has no in-window week at all. -/
theorem buildFigure1Data_topRepos_min_length (cache : List (String × RepoInfo))
    (now : Int) (daysBack topN : Nat) :
    ((buildFigure1Data cache now daysBack topN).2).length = min topN cache.length ∧
    (cache.length ≤ topN →
      ∀ e ∈ cache, e.1 ∈ (buildFigure1Data cache now daysBack topN).2) ∧
    ((cache.map Prod.fst).Nodup →
      ∀ (name : String) (t : Int) (c : Nat),
        windowTotal cache (fig1Cutoff now daysBack) name = 0 →
        TrafficPoint.mk name t c ∈ (buildFigure1Data cache now daysBack topN).1 →
        c = 0) ∧
    ((cache.map Prod.fst).Nodup →
      ∀ name : String,
        (∀ w ∈ (lookupD cache name default).weeks,
          ¬ w.w * 1000 ≥ fig1Cutoff now daysBack) →
        ∀ (t : Int) (c : Nat),
          TrafficPoint.mk name t c ∉ (buildFigure1Data cache now daysBack topN).1) := by
  have hlen : (fig1Sorted cache (fig1Cutoff now daysBack)).length = cache.length := by
    rw [fig1Sorted, (sSort_perm _ _).length_eq, fig1RepoTotals, List.length_map]
  refine ⟨?_, ?_, ?_, ?_⟩
  · rw [buildFigure1Data_snd, List.length_map, List.length_take, hlen]
  · intro hle e he
    rw [buildFigure1Data_snd, List.take_of_length_le (by rw [hlen]; exact hle),
      List.mem_map]
    exact ⟨_, (sSort_perm _ _).mem_iff.mpr (List.mem_map_of_mem _ he), rfl⟩
  · intro hnodup name t c h0 hmem
    obtain ⟨-, w, hw, hww, hwc, hcut⟩ :=
      (fig1_mem_traffic_iff cache now daysBack topN hnodup name t c).mp hmem
    have hwf : w ∈ (lookupD cache name default).weeks.filter
        fun w => decide (w.w * 1000 ≥ fig1Cutoff now daysBack) := by
      rw [List.mem_filter]
      exact ⟨hw, by simpa using hcut⟩
    have hc0 : w.c = 0 := by
      rw [windowTotal] at h0
      exact List.sum_eq_zero_iff.mp h0 _ (List.mem_map_of_mem _ hwf)
    rw [← hwc, hc0]
  · intro hnodup name hnow t c hmem
    obtain ⟨-, w, hw, -, -, hcut⟩ :=
      (fig1_mem_traffic_iff cache now daysBack topN hnodup name t c).mp hmem
    exact hnow w hw hcut

/-- Counterexample to C10's parenthetical "(zero-total repositories) contribute
no points, since all their weeks are outside the window": a repository whose
only week is *inside* the window with a zero commit count has windowed total 0,
appears in `topRepos`, and *does* contribute a (zero-valued) point. -/
theorem fig1_zero_total_repo_contributes_point :
    (buildFigure1Data [("a", RepoInfo.mk false 0 [Week.mk 0 0] [])] 0 7 1).2 = ["a"] ∧
    windowTotal [("a", RepoInfo.mk false 0 [Week.mk 0 0] [])] (fig1Cutoff 0 7) "a" = 0 ∧
    (buildFigure1Data [("a", RepoInfo.mk false 0 [Week.mk 0 0] [])] 0 7 1).1
      = [TrafficPoint.mk "a" 0 0] := by
  refine ⟨by decide, by decide, by decide⟩

/-- Witness for `buildFigure1Data_topRepos_min_length`: with two repositories
and `topN = 1` the ranking has length `min 1 2 = 1`; with `topN = 3` both
repositories (one with zero windowed total) appear; a zero-total repository's
emitted point carries count 0; a repository with no in-window weeks emits no
point. -/
theorem buildFigure1Data_topRepos_min_length_witness :
    ((buildFigure1Data [("a", RepoInfo.mk false 0 [Week.mk 0 0] []),
        ("b", RepoInfo.mk false 5 [Week.mk 0 5] [])] 0 7 1).2).length
      = min 1 ([("a", RepoInfo.mk false 0 [Week.mk 0 0] []),
        ("b", RepoInfo.mk false 5 [Week.mk 0 5] [])] :
          List (String × RepoInfo)).length ∧
    "a" ∈ (buildFigure1Data [("a", RepoInfo.mk false 0 [Week.mk 0 0] []),
        ("b", RepoInfo.mk false 5 [Week.mk 0 5] [])] 0 7 3).2 ∧
    (0 : Nat) = 0 ∧
    TrafficPoint.mk "a" (-700000) 5
      ∉ (buildFigure1Data [("a", RepoInfo.mk false 0 [Week.mk (-700000) 5] [])] 0 7 1).1 :=
  ⟨(buildFigure1Data_topRepos_min_length [("a", RepoInfo.mk false 0 [Week.mk 0 0] []),
      ("b", RepoInfo.mk false 5 [Week.mk 0 5] [])] 0 7 1).1,
   (buildFigure1Data_topRepos_min_length [("a", RepoInfo.mk false 0 [Week.mk 0 0] []),
      ("b", RepoInfo.mk false 5 [Week.mk 0 5] [])] 0 7 3).2.1 (by decide)
     ("a", RepoInfo.mk false 0 [Week.mk 0 0] []) (by decide),
   (buildFigure1Data_topRepos_min_length [("a", RepoInfo.mk false 0 [Week.mk 0 0] [])]
      0 7 1).2.2.1 (by decide) "a" 0 0 (by decide) (by decide),
   (buildFigure1Data_topRepos_min_length [("a", RepoInfo.mk false 0 [Week.mk (-700000) 5] [])]
      0 7 1).2.2.2 (by decide) "a" (by decide) (-700000) 5⟩

theorem lookupD_cons_self {κ υ : Type} [BEq κ] [LawfulBEq κ] (k : κ) (v : υ)
    (t : List (κ × υ)) (d : υ) : lookupD ((k, v) :: t) k d = v := by
  simp [lookupD, List.lookup]

theorem lookupD_cons_ne {κ υ : Type} [BEq κ] [LawfulBEq κ] {k k' : κ} (h : k ≠ k')
    (v : υ) (t : List (κ × υ)) (d : υ) : lookupD ((k', v) :: t) k d = lookupD t k d := by
  simp [lookupD, List.lookup, beq_eq_false_iff_ne.mpr h]

theorem lookupD_nil {κ υ : Type} [BEq κ] (k : κ) (d : υ) :
    lookupD ([] : List (κ × υ)) k d = d := rfl

/-- `bucket[lang] = (bucket[lang] || 0) + c` adds `c` to the read of `lang`
and leaves every other key's read unchanged. -/
theorem lookupD_bumpBucket (b : List (String × Nat)) (lang : String) (c : Nat)
    (l : String) :
    lookupD (bumpBucket b lang c) l 0
      = lookupD b l 0 + if l = lang then c else 0 := by
  induction b with
  | nil =>
    by_cases h : l = lang
    · subst h
      show lookupD [(l, c)] l 0 = lookupD [] l 0 + if l = l then c else 0
      rw [lookupD_cons_self, lookupD_nil, if_pos rfl]
      omega
    · show lookupD [(lang, c)] l 0 = lookupD [] l 0 + if l = lang then c else 0
      rw [lookupD_cons_ne h, lookupD_nil, if_neg h]
  | cons p rest ih =>
    obtain ⟨l', v'⟩ := p
    by_cases h : l' = lang
    · rw [bumpBucket, if_pos h]
      by_cases hl : l = l'
      · rw [hl, lookupD_cons_self, lookupD_cons_self, if_pos (hl ▸ h : l' = lang)]
      · rw [lookupD_cons_ne hl, lookupD_cons_ne hl,
          if_neg (fun he => hl (he.trans h.symm))]
        omega
    · rw [bumpBucket, if_neg h]
      by_cases hl : l = l'
      · rw [hl, lookupD_cons_self, lookupD_cons_self, if_neg h]
        omega
      · rw [lookupD_cons_ne hl, lookupD_cons_ne hl, ih]

theorem mem_keys_bumpBucket (b : List (String × Nat)) (lang : String) (c : Nat)
    (x : String) :
    x ∈ (bumpBucket b lang c).map Prod.fst ↔ x ∈ b.map Prod.fst ∨ x = lang := by
  induction b with
  | nil => simp [bumpBucket]
  | cons p rest ih =>
    obtain ⟨l', v'⟩ := p
    by_cases h : l' = lang
    · simp only [bumpBucket, if_pos h, List.map_cons, List.mem_cons]
      constructor
      · rintro (rfl | hx)
        · exact Or.inl (Or.inl rfl)
        · exact Or.inl (Or.inr hx)
      · rintro ((rfl | hx) | rfl)
        · exact Or.inl rfl
        · exact Or.inr hx
        · exact Or.inl h.symm
    · simp only [bumpBucket, if_neg h, List.map_cons, List.mem_cons, ih]
      tauto

/-- One `addWeek` changes exactly the `(day, lang)` cell of the nested map. -/
theorem lookupD_addWeek (m : List (Int × List (String × Nat))) (day : Int)
    (lang : String) (c : Nat) (d : Int) (l : String) :
    lookupD (lookupD (addWeek m day lang c) d []) l 0
      = lookupD (lookupD m d []) l 0 + if d = day ∧ l = lang then c else 0 := by
  induction m with
  | nil =>
    show lookupD (lookupD [(day, bumpBucket [] lang c)] d []) l 0 = _
    by_cases hd : d = day
    · rw [hd, lookupD_cons_self, lookupD_bumpBucket, lookupD_nil, lookupD_nil]
      by_cases hl : l = lang <;> simp [hl, lookupD_nil]
    · rw [lookupD_cons_ne hd, lookupD_nil, lookupD_nil,
        if_neg (fun hc => hd hc.1)]
  | cons p rest ih =>
    obtain ⟨d', b⟩ := p
    by_cases h : d' = day
    · rw [addWeek, if_pos h]
      by_cases hd : d = d'
      · rw [hd, lookupD_cons_self, lookupD_cons_self, lookupD_bumpBucket]
        by_cases hl : l = lang <;> simp [hl, h]
      · rw [lookupD_cons_ne hd, lookupD_cons_ne hd,
          if_neg (fun hc => hd (by omega))]
        omega
    · rw [addWeek, if_neg h]
      by_cases hd : d = d'
      · rw [hd, lookupD_cons_self, lookupD_cons_self,
          if_neg (fun hc => h (by omega))]
        omega
      · rw [lookupD_cons_ne hd, lookupD_cons_ne hd, ih]

theorem mem_keys_addWeek (m : List (Int × List (String × Nat))) (day : Int)
    (lang : String) (c : Nat) (x : Int) :
    x ∈ (addWeek m day lang c).map Prod.fst ↔ x ∈ m.map Prod.fst ∨ x = day := by
  induction m with
  | nil => simp [addWeek]
  | cons p rest ih =>
    obtain ⟨d', b⟩ := p
    by_cases h : d' = day
    · simp only [addWeek, if_pos h, List.map_cons, List.mem_cons]
      constructor
      · rintro (rfl | hx)
        · exact Or.inl (Or.inl rfl)
        · exact Or.inl (Or.inr hx)
      · rintro ((rfl | hx) | rfl)
        · exact Or.inl rfl
        · exact Or.inr hx
        · exact Or.inl h.symm
    · simp only [addWeek, if_neg h, List.map_cons, List.mem_cons, ih]
      tauto

theorem keys_nodup_addWeek (m : List (Int × List (String × Nat))) (day : Int)
    (lang : String) (c : Nat) (h : (m.map Prod.fst).Nodup) :
    ((addWeek m day lang c).map Prod.fst).Nodup := by
  induction m with
  | nil => simp [addWeek]
  | cons p rest ih =>
    obtain ⟨d', b⟩ := p
    rw [List.map_cons, List.nodup_cons] at h
    by_cases hk : d' = day
    · rw [addWeek, if_pos hk, List.map_cons, List.nodup_cons]
      exact h
    · rw [addWeek, if_neg hk, List.map_cons, List.nodup_cons]
      refine ⟨?_, ih h.2⟩
      rw [mem_keys_addWeek]
      rintro (hx | rfl)
      · exact h.1 hx
      · exact hk rfl

/-- A language key is observed in some bucket of `addWeek m day lang c` iff it
was already observed in `m` or it is `lang`. -/
theorem observed_addWeek (m : List (Int × List (String × Nat))) (day : Int)
    (lang : String) (c : Nat) (l : String) :
    (∃ p ∈ addWeek m day lang c, l ∈ p.2.map Prod.fst)
      ↔ (∃ p ∈ m, l ∈ p.2.map Prod.fst) ∨ l = lang := by
  induction m with
  | nil =>
    constructor
    · rintro ⟨p, hp, hl⟩
      rw [show addWeek [] day lang c = [(day, bumpBucket [] lang c)] from rfl,
        List.mem_singleton] at hp
      subst hp
      rcases (mem_keys_bumpBucket [] lang c l).mp hl with h | h
      · exact absurd h (List.not_mem_nil _)
      · exact Or.inr h
    · intro h
      rcases h with ⟨p, hp, hl⟩ | rfl
      · exact absurd hp (List.not_mem_nil _)
      · exact ⟨(day, bumpBucket [] l c), List.mem_singleton.mpr rfl,
          (mem_keys_bumpBucket [] l c l).mpr (Or.inr rfl)⟩
  | cons p rest ih =>
    obtain ⟨d', b⟩ := p
    by_cases h : d' = day
    · simp only [addWeek, if_pos h, List.mem_cons]
      constructor
      · rintro ⟨q, (rfl | hq), hl⟩
        · rw [mem_keys_bumpBucket] at hl
          rcases hl with hl | rfl
          · exact Or.inl ⟨(d', b), Or.inl rfl, hl⟩
          · exact Or.inr rfl
        · exact Or.inl ⟨q, Or.inr hq, hl⟩
      · rintro (⟨q, (rfl | hq), hl⟩ | rfl)
        · exact ⟨(d', bumpBucket b lang c), Or.inl rfl,
            (mem_keys_bumpBucket b lang c l).mpr (Or.inl hl)⟩
        · exact ⟨q, Or.inr hq, hl⟩
        · exact ⟨(d', bumpBucket b l c), Or.inl rfl,
            (mem_keys_bumpBucket b l c l).mpr (Or.inr rfl)⟩
    · simp only [addWeek, if_neg h, List.mem_cons]
      constructor
      · rintro ⟨q, (rfl | hq), hl⟩
        · exact Or.inl ⟨(d', b), Or.inl rfl, hl⟩
        · rcases ih.mp ⟨q, hq, hl⟩ with hobs | rfl
          · obtain ⟨q', hq', hl'⟩ := hobs
            exact Or.inl ⟨q', Or.inr hq', hl'⟩
          · exact Or.inr rfl
      · rintro (⟨q, (rfl | hq), hl⟩ | rfl)
        · exact ⟨(d', b), Or.inl rfl, hl⟩
        · obtain ⟨q', hq', hl'⟩ := ih.mpr (Or.inl ⟨q, hq, hl⟩)
          exact ⟨q', Or.inr hq', hl'⟩
        · obtain ⟨q', hq', hl'⟩ := ih.mpr (Or.inr rfl)
          exact ⟨q', Or.inr hq', hl'⟩

theorem fig2AddWeekStep_skip (cutoff : Int) (lang : String)
    (m : List (Int × List (String × Nat))) (w : Week) (h : w.w * 1000 < cutoff) :
    fig2AddWeekStep cutoff lang m w = m := by
  rw [fig2AddWeekStep, if_pos h]

theorem fig2AddWeekStep_add (cutoff : Int) (lang : String)
    (m : List (Int × List (String × Nat))) (w : Week) (h : ¬ w.w * 1000 < cutoff) :
    fig2AddWeekStep cutoff lang m w = addWeek m (w.w * 1000 / 86400000) lang w.c := by
  rw [fig2AddWeekStep, if_neg h]

/-- Folding one repository's weeks adds, to each `(day, l)` cell, that repo's
in-window commits of that day when `l` is the repo's chosen language. -/
theorem lookupD_weeksFold (cutoff : Int) (lang : String) (ws : List Week)
    (m : List (Int × List (String × Nat))) (d : Int) (l : String) :
    lookupD (lookupD (ws.foldl (fig2AddWeekStep cutoff lang) m) d []) l 0
      = lookupD (lookupD m d []) l 0 +
        if l = lang then
          ((ws.filter fun w => decide (¬ w.w * 1000 < cutoff)
              && decide (w.w * 1000 / 86400000 = d)).map (·.c)).sum
        else 0 := by
  induction ws generalizing m with
  | nil => simp
  | cons w ws ih =>
    rw [List.foldl_cons]
    by_cases hwin : w.w * 1000 < cutoff
    · rw [fig2AddWeekStep_skip cutoff lang m w hwin, ih, List.filter_cons]
      simp [hwin]
    · rw [fig2AddWeekStep_add cutoff lang m w hwin, ih, lookupD_addWeek,
        List.filter_cons]
      by_cases hl : l = lang
      · by_cases hd : w.w * 1000 / 86400000 = d
        · rw [if_pos (show (decide (¬ w.w * 1000 < cutoff)
                && decide (w.w * 1000 / 86400000 = d)) = true by simp [hwin, hd]),
            if_pos (And.intro hd.symm hl), if_pos hl, if_pos hl,
            List.map_cons, List.sum_cons]
          omega
        · rw [if_neg (show ¬ (decide (¬ w.w * 1000 < cutoff)
                && decide (w.w * 1000 / 86400000 = d)) = true by simp [hwin, hd]),
            if_neg (fun hc => hd hc.1.symm), if_pos hl]
          omega
      · rw [if_neg (fun hc => hl hc.2), if_neg hl, if_neg hl]

theorem mem_keys_weeksFold (cutoff : Int) (lang : String) (ws : List Week)
    (m : List (Int × List (String × Nat))) (x : Int) :
    x ∈ (ws.foldl (fig2AddWeekStep cutoff lang) m).map Prod.fst
      ↔ x ∈ m.map Prod.fst
        ∨ ∃ w ∈ ws, ¬ w.w * 1000 < cutoff ∧ w.w * 1000 / 86400000 = x := by
  induction ws generalizing m with
  | nil => simp
  | cons w ws ih =>
    rw [List.foldl_cons]
    by_cases hwin : w.w * 1000 < cutoff
    · rw [fig2AddWeekStep_skip cutoff lang m w hwin, ih]
      constructor
      · rintro (h | ⟨w', hw', hc⟩)
        · exact Or.inl h
        · exact Or.inr ⟨w', List.mem_cons_of_mem _ hw', hc⟩
      · rintro (h | ⟨w', hw', hc⟩)
        · exact Or.inl h
        · rcases List.mem_cons.mp hw' with rfl | hw''
          · exact absurd hwin hc.1
          · exact Or.inr ⟨w', hw'', hc⟩
    · rw [fig2AddWeekStep_add cutoff lang m w hwin, ih, mem_keys_addWeek]
      constructor
      · rintro ((h | rfl) | ⟨w', hw', hc⟩)
        · exact Or.inl h
        · exact Or.inr ⟨w, List.mem_cons_self _ _, hwin, rfl⟩
        · exact Or.inr ⟨w', List.mem_cons_of_mem _ hw', hc⟩
      · rintro (h | ⟨w', hw', hc⟩)
        · exact Or.inl (Or.inl h)
        · rcases List.mem_cons.mp hw' with rfl | hw''
          · exact Or.inl (Or.inr hc.2.symm)
          · exact Or.inr ⟨w', hw'', hc⟩

theorem keys_nodup_weeksFold (cutoff : Int) (lang : String) (ws : List Week)
    (m : List (Int × List (String × Nat))) (h : (m.map Prod.fst).Nodup) :
    ((ws.foldl (fig2AddWeekStep cutoff lang) m).map Prod.fst).Nodup := by
  induction ws generalizing m with
  | nil => exact h
  | cons w ws ih =>
    rw [List.foldl_cons]
    by_cases hwin : w.w * 1000 < cutoff
    · rw [fig2AddWeekStep_skip cutoff lang m w hwin]
      exact ih m h
    · rw [fig2AddWeekStep_add cutoff lang m w hwin]
      exact ih _ (keys_nodup_addWeek m _ lang w.c h)

theorem observed_weeksFold (cutoff : Int) (lang : String) (ws : List Week)
    (m : List (Int × List (String × Nat))) (l : String) :
    (∃ p ∈ ws.foldl (fig2AddWeekStep cutoff lang) m, l ∈ p.2.map Prod.fst)
      ↔ (∃ p ∈ m, l ∈ p.2.map Prod.fst)
        ∨ (l = lang ∧ ∃ w ∈ ws, ¬ w.w * 1000 < cutoff) := by
  induction ws generalizing m with
  | nil => simp
  | cons w ws ih =>
    rw [List.foldl_cons]
    by_cases hwin : w.w * 1000 < cutoff
    · rw [fig2AddWeekStep_skip cutoff lang m w hwin, ih]
      constructor
      · rintro (h | ⟨hll, w', hw', hc⟩)
        · exact Or.inl h
        · exact Or.inr ⟨hll, w', List.mem_cons_of_mem _ hw', hc⟩
      · rintro (h | ⟨hll, w', hw', hc⟩)
        · exact Or.inl h
        · rcases List.mem_cons.mp hw' with rfl | hw''
          · exact absurd hwin hc
          · exact Or.inr ⟨hll, w', hw'', hc⟩
    · rw [fig2AddWeekStep_add cutoff lang m w hwin, ih, observed_addWeek]
      constructor
      · rintro ((h | rfl) | ⟨hll, w', hw', hc⟩)
        · exact Or.inl h
        · exact Or.inr ⟨rfl, w, List.mem_cons_self _ _, hwin⟩
        · exact Or.inr ⟨hll, w', List.mem_cons_of_mem _ hw', hc⟩
      · rintro (h | ⟨hll, w', hw', hc⟩)
        · exact Or.inl (Or.inl h)
        · rcases List.mem_cons.mp hw' with rfl | hw''
          · exact Or.inl (Or.inr hll)
          · exact Or.inr ⟨hll, w', hw'', hc⟩

theorem lookupD_fig2WeekMap_aux (cutoff : Int) (cache : List (String × RepoInfo))
    (m : List (Int × List (String × Nat))) (d : Int) (l : String) :
    lookupD (lookupD (cache.foldl (fig2AddRepo cutoff) m) d []) l 0
      = lookupD (lookupD m d []) l 0 + fig2SpecCount cache cutoff d l := by
  induction cache generalizing m with
  | nil => simp [fig2SpecCount]
  | cons e cache ih =>
    rw [List.foldl_cons,
      show fig2AddRepo cutoff m e
        = e.2.weeks.foldl (fig2AddWeekStep cutoff (dominantLang e.2)) m from rfl,
      ih, lookupD_weeksFold]
    have hs : fig2SpecCount (e :: cache) cutoff d l
        = (if dominantLang e.2 = l then
            ((e.2.weeks.filter fun w => decide (¬ w.w * 1000 < cutoff)
                && decide (w.w * 1000 / 86400000 = d)).map (·.c)).sum
          else 0) + fig2SpecCount cache cutoff d l := by
      rw [fig2SpecCount, fig2SpecCount, List.map_cons, List.sum_cons]
    rw [hs]
    by_cases hdl : dominantLang e.2 = l
    · rw [if_pos hdl, if_pos hdl.symm]
      omega
    · rw [if_neg hdl, if_neg fun h => hdl h.symm]
      omega

theorem mem_keys_fig2WeekMap_aux (cutoff : Int) (cache : List (String × RepoInfo))
    (m : List (Int × List (String × Nat))) (x : Int) :
    x ∈ (cache.foldl (fig2AddRepo cutoff) m).map Prod.fst
      ↔ x ∈ m.map Prod.fst ∨ fig2DayObserved cache cutoff x := by
  induction cache generalizing m with
  | nil => simp [fig2DayObserved]
  | cons e cache ih =>
    rw [List.foldl_cons,
      show fig2AddRepo cutoff m e
        = e.2.weeks.foldl (fig2AddWeekStep cutoff (dominantLang e.2)) m from rfl,
      ih, mem_keys_weeksFold]
    simp only [fig2DayObserved, List.mem_cons]
    constructor
    · rintro ((h | ⟨w, hw, hc⟩) | ⟨e', he', hobs⟩)
      · exact Or.inl h
      · exact Or.inr ⟨e, Or.inl rfl, w, hw, hc⟩
      · exact Or.inr ⟨e', Or.inr he', hobs⟩
    · rintro (h | ⟨e', (rfl | he''), hobs⟩)
      · exact Or.inl (Or.inl h)
      · exact Or.inl (Or.inr hobs)
      · exact Or.inr ⟨e', he'', hobs⟩

theorem keys_nodup_fig2WeekMap_aux (cutoff : Int) (cache : List (String × RepoInfo))
    (m : List (Int × List (String × Nat))) (h : (m.map Prod.fst).Nodup) :
    ((cache.foldl (fig2AddRepo cutoff) m).map Prod.fst).Nodup := by
  induction cache generalizing m with
  | nil => exact h
  | cons e cache ih =>
    rw [List.foldl_cons]
    exact ih _ (keys_nodup_weeksFold cutoff (dominantLang e.2) e.2.weeks m h)

theorem observed_fig2WeekMap_aux (cutoff : Int) (cache : List (String × RepoInfo))
    (m : List (Int × List (String × Nat))) (l : String) :
    (∃ p ∈ cache.foldl (fig2AddRepo cutoff) m, l ∈ p.2.map Prod.fst)
      ↔ (∃ p ∈ m, l ∈ p.2.map Prod.fst) ∨ fig2Observed cache cutoff l := by
  induction cache generalizing m with
  | nil => simp [fig2Observed]
  | cons e cache ih =>
    rw [List.foldl_cons,
      show fig2AddRepo cutoff m e
        = e.2.weeks.foldl (fig2AddWeekStep cutoff (dominantLang e.2)) m from rfl,
      ih, observed_weeksFold]
    simp only [fig2Observed, List.mem_cons]
    constructor
    · rintro ((h | ⟨hll, w, hw, hc⟩) | ⟨e', he', hobs⟩)
      · exact Or.inl h
      · exact Or.inr ⟨e, Or.inl rfl, hll.symm, w, hw, hc⟩
      · exact Or.inr ⟨e', Or.inr he', hobs⟩
    · rintro (h | ⟨e', (rfl | he''), hdom, w, hw, hc⟩)
      · exact Or.inl (Or.inl h)
      · exact Or.inl (Or.inr ⟨hdom.symm, w, hw, hc⟩)
      · exact Or.inr ⟨e', he'', hdom, w, hw, hc⟩

theorem langle_trans (a b c : String × Nat) (h1 : decide (b.2 ≤ a.2) = true)
    (h2 : decide (c.2 ≤ b.2) = true) : decide (c.2 ≤ a.2) = true := by
  simp only [decide_eq_true_eq] at h1 h2 ⊢
  omega

theorem langle_total (a b : String × Nat) :
    decide (b.2 ≤ a.2) = true ∨ decide (a.2 ≤ b.2) = true := by
  simp only [decide_eq_true_eq]
  omega

/-- The dominant-language choice: `"restricted"` for private repositories, and
otherwise a byte-maximal entry of the languages mapping (when nonempty). -/
theorem dominantLang_spec (info : RepoInfo) :
    (info.isPrivate = true → dominantLang info = "restricted") ∧
    (info.isPrivate = false → info.languages ≠ [] →
      ∃ bytes, (dominantLang info, bytes) ∈ info.languages ∧
        ∀ p ∈ info.languages, p.2 ≤ bytes) := by
  constructor
  · intro h
    simp [dominantLang, h]
  · intro hpriv hne
    have hsorted := sSort_sorted (fun a b : String × Nat => decide (b.2 ≤ a.2))
      langle_trans langle_total info.languages
    obtain ⟨q, qs, hq⟩ : ∃ q qs,
        sSort (fun a b : String × Nat => decide (b.2 ≤ a.2)) info.languages
          = q :: qs := by
      cases hss : sSort (fun a b : String × Nat => decide (b.2 ≤ a.2)) info.languages with
      | nil =>
        exfalso
        apply hne
        have := (sSort_perm (fun a b : String × Nat => decide (b.2 ≤ a.2))
          info.languages).length_eq
        rw [hss] at this
        exact List.length_eq_zero.mp this.symm
      | cons q qs => exact ⟨q, qs, rfl⟩
    have hie : info.languages.isEmpty = false := by
      cases hcase : info.languages with
      | nil => exact absurd hcase hne
      | cons a t => rfl
    have hdom : dominantLang info = q.1 := by
      show (if info.isPrivate = true then "restricted"
        else if info.languages.isEmpty = true then "Other"
        else ((sSort (fun a b : String × Nat => decide (b.2 ≤ a.2))
            info.languages).headD ("Other", 0)).1) = q.1
      rw [if_neg (by rw [hpriv]; exact Bool.false_ne_true),
        if_neg (by rw [hie]; exact Bool.false_ne_true), hq]
      rfl
    refine ⟨q.2, ?_, ?_⟩
    · rw [hdom]
      have hqmem : q ∈ info.languages :=
        (sSort_perm _ _).mem_iff.mp (by rw [hq]; exact List.mem_cons_self _ _)
      exact hqmem
    · intro p hp
      have hps : p ∈ q :: qs := by
        rw [← hq]
        exact (sSort_perm _ _).mem_iff.mpr hp
      rcases List.mem_cons.mp hps with rfl | hp'
      · exact le_refl _
      · have hrel := (List.pairwise_cons.mp (hq ▸ hsorted)).1 p hp'
        simpa using hrel

theorem buildFigure2Data_eq (cache : List (String × RepoInfo)) (now : Int)
    (weeksBack : Nat) :
    buildFigure2Data cache now weeksBack
      = (sSort (fun a b => decide (a ≤ b))
          ((fig2WeekMap cache (fig2Cutoff now weeksBack)).map Prod.fst)).map
          fun d =>
            { date := d,
              counts := (fig2Languages (fig2WeekMap cache (fig2Cutoff now weeksBack))).map
                fun l =>
                  (l, lookupD
                    (lookupD (fig2WeekMap cache (fig2Cutoff now weeksBack)) d []) l 0) } :=
  rfl

theorem intle_trans (a b c : Int) (h1 : decide (a ≤ b) = true)
    (h2 : decide (b ≤ c) = true) : decide (a ≤ c) = true := by
  simp only [decide_eq_true_eq] at h1 h2 ⊢
  omega

theorem intle_total (a b : Int) : decide (a ≤ b) = true ∨ decide (b ≤ a) = true := by
  simp only [decide_eq_true_eq]
  omega

/-- **C5.** `buildFigure2Data` attributes each repository's in-window weekly
commits to its single chosen language — the byte-largest one, forced to
`"restricted"` for private repositories — and emits one row per observed
in-window week-start date, in strictly ascending date order, each row carrying
every language key observed anywhere in the window, with the cell for
`(date, language)` equal to the sum of the matching repositories' commit
counts in that week (zero-filled where no repository contributes). -/
theorem buildFigure2Data_rows (cache : List (String × RepoInfo)) (now : Int)
    (weeksBack : Nat) :
    ((buildFigure2Data cache now weeksBack).map Fig2Row.date).Pairwise (· < ·) ∧
    (∀ d : Int, (∃ row ∈ buildFigure2Data cache now weeksBack, row.date = d)
        ↔ fig2DayObserved cache (fig2Cutoff now weeksBack) d) ∧
    (∀ row ∈ buildFigure2Data cache now weeksBack,
      row.counts.map Prod.fst
        = fig2Languages (fig2WeekMap cache (fig2Cutoff now weeksBack))) ∧
    (∀ l : String, l ∈ fig2Languages (fig2WeekMap cache (fig2Cutoff now weeksBack))
        ↔ fig2Observed cache (fig2Cutoff now weeksBack) l) ∧
    (∀ row ∈ buildFigure2Data cache now weeksBack, ∀ lv ∈ row.counts,
      lv.2 = fig2SpecCount cache (fig2Cutoff now weeksBack) row.date lv.1) ∧
    (∀ info : RepoInfo,
      (info.isPrivate = true → dominantLang info = "restricted") ∧
      (info.isPrivate = false → info.languages ≠ [] →
        ∃ bytes, (dominantLang info, bytes) ∈ info.languages ∧
          ∀ p ∈ info.languages, p.2 ≤ bytes)) := by
  have hkeysnodup : ((fig2WeekMap cache (fig2Cutoff now weeksBack)).map Prod.fst).Nodup :=
    keys_nodup_fig2WeekMap_aux (fig2Cutoff now weeksBack) cache [] (by simp)
  have hlookup0 : ∀ (d : Int) (l : String),
      lookupD (lookupD (fig2WeekMap cache (fig2Cutoff now weeksBack)) d []) l 0
        = fig2SpecCount cache (fig2Cutoff now weeksBack) d l := by
    intro d l
    have := lookupD_fig2WeekMap_aux (fig2Cutoff now weeksBack) cache [] d l
    rw [show (cache.foldl (fig2AddRepo (fig2Cutoff now weeksBack)) []
        : List (Int × List (String × Nat)))
      = fig2WeekMap cache (fig2Cutoff now weeksBack) from rfl] at this
    simpa [lookupD_nil] using this
  refine ⟨?_, ?_, ?_, ?_, ?_, dominantLang_spec⟩
  · rw [buildFigure2Data_eq, List.map_map, List.pairwise_map]
    have hsorted := sSort_sorted (fun a b : Int => decide (a ≤ b)) intle_trans
      intle_total ((fig2WeekMap cache (fig2Cutoff now weeksBack)).map Prod.fst)
    have hnd : (sSort (fun a b : Int => decide (a ≤ b))
        ((fig2WeekMap cache (fig2Cutoff now weeksBack)).map Prod.fst)).Nodup := by
      rw [(sSort_perm _ _).nodup_iff]
      exact hkeysnodup
    refine (List.Pairwise.and hsorted hnd).imp ?_
    intro a b hab
    obtain ⟨h1, h2⟩ := hab
    rw [decide_eq_true_eq] at h1
    show a < b
    omega
  · intro d
    rw [buildFigure2Data_eq]
    constructor
    · rintro ⟨row, hrow, hdate⟩
      rw [List.mem_map] at hrow
      obtain ⟨d', hd', rfl⟩ := hrow
      have : d' ∈ (fig2WeekMap cache (fig2Cutoff now weeksBack)).map Prod.fst :=
        (sSort_perm _ _).mem_iff.mp hd'
      have hobs := (mem_keys_fig2WeekMap_aux (fig2Cutoff now weeksBack) cache [] d').mp this
      rcases hobs with h | h
      · cases h
      · exact hdate ▸ h
    · intro hobs
      have : d ∈ (fig2WeekMap cache (fig2Cutoff now weeksBack)).map Prod.fst :=
        (mem_keys_fig2WeekMap_aux (fig2Cutoff now weeksBack) cache [] d).mpr (Or.inr hobs)
      refine ⟨_, List.mem_map_of_mem _ ((sSort_perm _ _).mem_iff.mpr this), rfl⟩
  · intro row hrow
    rw [buildFigure2Data_eq, List.mem_map] at hrow
    obtain ⟨d', hd', rfl⟩ := hrow
    show ((fig2Languages (fig2WeekMap cache (fig2Cutoff now weeksBack))).map
        fun l => (l, lookupD (lookupD (fig2WeekMap cache (fig2Cutoff now weeksBack)) d' [])
          l 0)).map Prod.fst
      = fig2Languages (fig2WeekMap cache (fig2Cutoff now weeksBack))
    rw [List.map_map]
    exact List.map_id _
  · intro l
    rw [fig2Languages, List.mem_dedup, List.mem_flatMap]
    have := observed_fig2WeekMap_aux (fig2Cutoff now weeksBack) cache [] l
    rw [show (cache.foldl (fig2AddRepo (fig2Cutoff now weeksBack)) []
        : List (Int × List (String × Nat)))
      = fig2WeekMap cache (fig2Cutoff now weeksBack) from rfl] at this
    rw [show (∃ p, p ∈ fig2WeekMap cache (fig2Cutoff now weeksBack)
        ∧ l ∈ p.2.map Prod.fst)
      ↔ (∃ p ∈ fig2WeekMap cache (fig2Cutoff now weeksBack), l ∈ p.2.map Prod.fst)
      from Iff.rfl, this]
    simp
  · intro row hrow lv hlv
    rw [buildFigure2Data_eq, List.mem_map] at hrow
    obtain ⟨d', hd', rfl⟩ := hrow
    rw [List.mem_map] at hlv
    obtain ⟨l, hl, rfl⟩ := hlv
    exact hlookup0 d' l

/-- Witness for `buildFigure2Data_rows`: one private repository with 10
commits in week W and one public JavaScript-dominant repository with 5 commits
in week W produce the single row `{restricted: 10, JavaScript: 5}` (every
observed key present), and the theorem's cell characterisation holds at both
cells. -/
theorem buildFigure2Data_rows_witness :
    buildFigure2Data [("p", RepoInfo.mk true 10 [Week.mk 0 10] [("Python", 50)]),
        ("j", RepoInfo.mk false 5 [Week.mk 0 5] [("JavaScript", 100), ("HTML", 10)])] 0 1
      = [Fig2Row.mk 0 [("restricted", 10), ("JavaScript", 5)]] ∧
    (("restricted", (10 : Nat)).2
      = fig2SpecCount [("p", RepoInfo.mk true 10 [Week.mk 0 10] [("Python", 50)]),
          ("j", RepoInfo.mk false 5 [Week.mk 0 5] [("JavaScript", 100), ("HTML", 10)])]
        (fig2Cutoff 0 1) (Fig2Row.mk 0 [("restricted", 10), ("JavaScript", 5)]).date
        ("restricted", (10 : Nat)).1) ∧
    (("JavaScript", (5 : Nat)).2
      = fig2SpecCount [("p", RepoInfo.mk true 10 [Week.mk 0 10] [("Python", 50)]),
          ("j", RepoInfo.mk false 5 [Week.mk 0 5] [("JavaScript", 100), ("HTML", 10)])]
        (fig2Cutoff 0 1) (Fig2Row.mk 0 [("restricted", 10), ("JavaScript", 5)]).date
        ("JavaScript", (5 : Nat)).1) :=
  ⟨by decide,
   (buildFigure2Data_rows [("p", RepoInfo.mk true 10 [Week.mk 0 10] [("Python", 50)]),
        ("j", RepoInfo.mk false 5 [Week.mk 0 5] [("JavaScript", 100), ("HTML", 10)])]
      0 1).2.2.2.2.1 (Fig2Row.mk 0 [("restricted", 10), ("JavaScript", 5)]) (by decide)
      ("restricted", 10) (by decide),
   (buildFigure2Data_rows [("p", RepoInfo.mk true 10 [Week.mk 0 10] [("Python", 50)]),
        ("j", RepoInfo.mk false 5 [Week.mk 0 5] [("JavaScript", 100), ("HTML", 10)])]
      0 1).2.2.2.2.1 (Fig2Row.mk 0 [("restricted", 10), ("JavaScript", 5)]) (by decide)
      ("JavaScript", 5) (by decide)⟩

end GhDash
